import Mathlib

/-!
Verification of the filex semantic-search backend.

The development shallowly embeds the parts of the Python source that the
checked properties are about:

* `src/backend/src/search_manager.py` — the dual vector index (text and
  image) with incremental add/remove, sidecar persistence and cosine search;
* `src/backend/src/index_manager.py` — the catalog and change detection;
* `src/backend/src/file_metadata.py` and `src/backend/src/image_handlers.py`
  — metadata snapshots and the image handler dispatch test;
* `src/backend/src/filex/embedding/repo_manager.py` — the per-file indexing
  pipeline `index_file`;
* `src/backend/src/chunkers.py` — the two chunking strategies;
* `src/backend/src/web_app.py` — the admission control of `POST /api/index`.

Modelling conventions: numpy float arrays are modelled over `ℚ` (the checked
properties are structural and do not depend on rounding); machine file
contents are lists of byte values (`List Nat`); SHA-256 and the float L2 norm
are passed in as function parameters, since the properties quantify over
them; filesystem path canonicalization (`Path.resolve`) is modelled as the
identity, i.e. paths are taken to be already canonical.
-/

namespace Filex

/-! ### Path helpers (model of the pathlib operations used by the source) -/

/-- Model of `str(Path(p).resolve())`: canonicalization is not modelled,
paths are taken as already canonical. -/
def resolvePath (p : String) : String := p

/-- Characters of the last path component, i.e. everything after the final
slash. -/
def lastComponentChars (l : List Char) : List Char :=
  l.foldl (fun acc c => if c = '/' then [] else acc ++ [c]) []

/-- Model of `Path(p).name`: the final path component. -/
def pathName (p : String) : String :=
  String.mk (lastComponentChars p.data)

/-- Index of the last occurrence of a character, if any. -/
def lastIdxOf (c : Char) (l : List Char) : Option Nat :=
  l.enum.foldl (fun acc p => if p.2 = c then some p.1 else acc) none

/-- Model of `Path(p).suffix`: the extension of the final component,
of the form `.ext`; empty when the final component has no inner dot
(CPython rule: the dot index must satisfy `0 < i < len(name) - 1`). -/
def pathSuffix (p : String) : String :=
  let name := (pathName p).data
  match lastIdxOf '.' name with
  | some i => if 0 < i ∧ i + 1 < name.length then String.mk (name.drop i) else ""
  | none => ""

/-- Model of `str.lower()`, character by character. -/
def lowerStr (s : String) : String := String.mk (s.data.map Char.toLower)

/-- The image extension set `{'.png', '.jpg', '.jpeg'}` used by the source. -/
def imageExtensions : List String := [".png", ".jpg", ".jpeg"]

/-- The text extension set `{'.txt', '.docx'}` used by `FileMetadata`. -/
def textExtensions : List String := [".txt", ".docx"]

/-! ### numpy matrix model

A 2-D float array is a list of rows together with its recorded column count
`shape[1]`; `IsRect` states the shape is honest, which every real
`np.ndarray` satisfies by construction. -/

structure NpMatrix where
  rows : List (List ℚ)
  ncols : Nat
deriving DecidableEq

/-- Every row has exactly `ncols` entries, as a real numpy 2-D array does. -/
def NpMatrix.IsRect (A : NpMatrix) : Prop := ∀ r ∈ A.rows, r.length = A.ncols

instance (A : NpMatrix) : Decidable A.IsRect := by
  unfold NpMatrix.IsRect; infer_instance

/-! ### SearchManager state (search_manager.py) -/

/-- One record of the parallel metadata list (`self._metadata`). -/
structure MetaEntry where
  file_path : String
  file_name : String
  chunk_index : Nat
  chunk_text : String
deriving DecidableEq

/-- In-memory state of a `SearchManager`: the text pair
(`self._embeddings`, `self._metadata`) and the image pair
(`self._image_embeddings`, `self._image_metadata`). -/
structure SMState where
  embeddings : Option NpMatrix
  metadata : List MetaEntry
  image_embeddings : Option NpMatrix
  image_metadata : List MetaEntry
deriving DecidableEq

def emptySM : SMState := ⟨none, [], none, []⟩

/-- The on-disk sidecar pair of one kind:
`<kind>_search_index.npy` and `<kind>_search_metadata.json`.
`none` means the file does not exist. -/
structure KindDisk where
  index_npy : Option NpMatrix
  metadata_json : Option (List MetaEntry)
deriving DecidableEq

/-- The sidecar files of both kinds inside `index/`. -/
structure Disk where
  text : KindDisk
  image : KindDisk
deriving DecidableEq

def emptyDisk : Disk := ⟨⟨none, none⟩, ⟨none, none⟩⟩

namespace SearchManager

/-- Model of `SearchManager._load_search_data`: a kind is loaded only when
both its files exist, otherwise it starts fresh (corruption of an existing
file is not representable in the model). -/
def load_search_data (d : Disk) : SMState :=
  let textPair :=
    match d.text.index_npy, d.text.metadata_json with
    | some e, some m => (some e, m)
    | _, _ => ((none : Option NpMatrix), ([] : List MetaEntry))
  let imagePair :=
    match d.image.index_npy, d.image.metadata_json with
    | some e, some m => (some e, m)
    | _, _ => ((none : Option NpMatrix), ([] : List MetaEntry))
  ⟨textPair.1, textPair.2, imagePair.1, imagePair.2⟩

/-- Model of `SearchManager._save_search_data`: a kind is written only when
its matrix is present and has at least one row; otherwise the files on disk
are left untouched. -/
def save_search_data (st : SMState) (d : Disk) : Disk :=
  let text :=
    match st.embeddings with
    | some E => if E.rows.length > 0 then KindDisk.mk (some E) (some st.metadata) else d.text
    | none => d.text
  let image :=
    match st.image_embeddings with
    | some E => if E.rows.length > 0 then KindDisk.mk (some E) (some st.image_metadata) else d.image
    | none => d.image
  ⟨text, image⟩

/-- The list `indices_to_remove` of `remove_file_embeddings`: positions of
the metadata records that carry `fp`. -/
def removalIndices (meta : List MetaEntry) (fp : String) : List Nat :=
  (meta.enum.filter (fun p => p.2.file_path == fp)).map (fun p => p.1)

/-- The list `indices_to_keep`: the complement of `removalIndices` inside
`range meta.length`. -/
def keepIndices (meta : List MetaEntry) (fp : String) : List Nat :=
  (List.range meta.length).filter (fun i => !((removalIndices meta fp).contains i))

/-- The numpy fancy indexing `E[indices_to_keep]` applied under the
`is not None` guard of the source. -/
def gatherRows (emb : Option NpMatrix) (keep : List Nat) : Option NpMatrix :=
  match emb with
  | some E => some (NpMatrix.mk (keep.filterMap (fun i => E.rows[i]?)) E.ncols)
  | none => none

/-- The per-kind body of `remove_file_embeddings` (the source repeats this
block verbatim for the text and the image kind): collect the indices whose
metadata record carries `fp`, keep the complement, and rebuild both lists;
when nothing is kept the matrix becomes `None`. Returns the new pair and
whether anything was removed. -/
def removeRowsForPath (emb : Option NpMatrix) (meta : List MetaEntry) (fp : String) :
    (Option NpMatrix × List MetaEntry) × Bool :=
  if removalIndices meta fp ≠ [] then
    if keepIndices meta fp ≠ [] then
      ((gatherRows emb (keepIndices meta fp),
        (keepIndices meta fp).filterMap (fun i => meta[i]?)), true)
    else ((none, []), true)
  else ((emb, meta), false)

/-- Model of `SearchManager.remove_file_embeddings(file_path, is_image)`:
`is_image = none` removes from both kinds; the sidecars are rewritten only
when something was removed. -/
def remove_file_embeddings (st : SMState) (d : Disk) (file_path : String)
    (is_image : Option Bool) : SMState × Disk :=
  let fp := resolvePath file_path
  let textRes :=
    if is_image = none ∨ is_image = some false then
      removeRowsForPath st.embeddings st.metadata fp
    else ((st.embeddings, st.metadata), false)
  let imageRes :=
    if is_image = none ∨ is_image = some true then
      removeRowsForPath st.image_embeddings st.image_metadata fp
    else ((st.image_embeddings, st.image_metadata), false)
  let st' : SMState := ⟨textRes.1.1, textRes.1.2, imageRes.1.1, imageRes.1.2⟩
  if textRes.2 || imageRes.2 then (st', save_search_data st' d) else (st', d)

/-- The metadata records appended for a file: one per chunk, with running
`chunk_index`. -/
def mkMetadataEntries (fp : String) (chunks : List String) : List MetaEntry :=
  chunks.enum.map (fun p =>
    { file_path := fp, file_name := pathName fp, chunk_index := p.1, chunk_text := p.2 })

/-- The kind selected by `is_image` after the auto-detection step of
`add_file_embeddings`: an explicit `false` still routes to the image kind
when the resolved path has an image extension. -/
def targetIsImage (file_path : String) (is_image : Bool) : Bool :=
  if !is_image then imageExtensions.contains (lowerStr (pathSuffix (resolvePath file_path)))
  else is_image

/-- Read the pair of one kind. -/
def getKind (st : SMState) (isImg : Bool) : Option NpMatrix × List MetaEntry :=
  if isImg then (st.image_embeddings, st.image_metadata) else (st.embeddings, st.metadata)

/-- Write the pair of one kind, leaving the other untouched. -/
def setKind (st : SMState) (isImg : Bool) (emb : Option NpMatrix) (meta : List MetaEntry) :
    SMState :=
  if isImg then { st with image_embeddings := emb, image_metadata := meta }
  else { st with embeddings := emb, metadata := meta }

/-- Model of `SearchManager.add_file_embeddings(file_path, chunks, embeddings,
is_image)`. A 1-D input array is reshaped by the source to a single row
first; the model takes the already 2-D matrix. Errors (`ValueError` in the
source) are returned as the third component; the dimension-mismatch error is
raised only after the internal removal has already mutated the state, exactly
as in the source.

Two aliasing details of the source are modelled precisely: the local
`target_embeddings` is bound BEFORE `remove_file_embeddings` rebinds the
attribute, so the branch on `is None` and the expected dimension both use
the pre-removal matrix, while the later `np.vstack` reads the post-removal
attribute. Consequently, when the pre-removal matrix existed but the
removal emptied the kind (the added file was its sole occupant),
`np.vstack([None, embeddings])` is reached: for a matrix of width other
than one this raises ValueError (`np.atleast_2d(None)` has shape 1 x 1),
which the model returns as an error with the post-removal state kept; for
width exactly one numpy instead builds an object-dtype array with a leading
`None` row, which lies outside this float-matrix state space — the model
returns the same error there, so theorems about this function restrict the
width-one case away where the distinction matters. -/
def add_file_embeddings (st : SMState) (d : Disk) (file_path : String)
    (chunks : List String) (embeddings : NpMatrix) (is_image : Bool := false) :
    SMState × Disk × Option String :=
  if chunks.length ≠ embeddings.rows.length then
    (st, d, some "Chunks and embeddings count mismatch")
  else
    let fp := resolvePath file_path
    let isImg := targetIsImage file_path is_image
    let target_old := (getKind st isImg).1
    let r1 := remove_file_embeddings st d fp (some isImg)
    let newMeta := mkMetadataEntries fp chunks
    match target_old with
    | none =>
      let st2 := setKind r1.1 isImg (some embeddings) ((getKind r1.1 isImg).2 ++ newMeta)
      (st2, save_search_data st2 r1.2, none)
    | some E =>
      if embeddings.ncols ≠ E.ncols then (r1.1, r1.2, some "Embedding dimension mismatch")
      else
        match (getKind r1.1 isImg).1 with
        | some Ecur =>
          let st2 := setKind r1.1 isImg
            (some (NpMatrix.mk (Ecur.rows ++ embeddings.rows) Ecur.ncols))
            ((getKind r1.1 isImg).2 ++ newMeta)
          (st2, save_search_data st2 r1.2, none)
        | none =>
          (r1.1, r1.2, some "ValueError: np.vstack of None with the new embeddings")

end SearchManager

/-! ### Operation sequences over the vector index -/

/-- One mutation of the vector index. -/
inductive SMOp where
  | add (file_path : String) (chunks : List String) (embeddings : NpMatrix) (is_image : Bool)
  | remove (file_path : String) (is_image : Option Bool)

/-- Apply one operation; an error raised by `add` leaves the state as the
partially executed call left it, as in the source. -/
def SMOp.apply (s : SMState × Disk) : SMOp → SMState × Disk
  | .add fp c V b =>
    let r := SearchManager.add_file_embeddings s.1 s.2 fp c V b
    (r.1, r.2.1)
  | .remove fp b => SearchManager.remove_file_embeddings s.1 s.2 fp b

/-- The input matrix of an `add` operation is an honest numpy array. -/
def SMOp.RectInput : SMOp → Prop
  | .add _ _ V _ => V.IsRect
  | .remove _ _ => True

instance (op : SMOp) : Decidable op.RectInput := by
  cases op <;> (unfold SMOp.RectInput; infer_instance)

/-- An `add` input that is an honest numpy float matrix of width other than
one. Width one is excluded because on the sole-occupant re-add path
`np.vstack([None, V])` then builds an object-dtype array instead of
raising, a state outside this float model (see `add_file_embeddings`). -/
def SMOp.FloatSafe : SMOp → Prop
  | .add _ _ V _ => V.IsRect ∧ V.ncols ≠ 1
  | .remove _ _ => True

instance (op : SMOp) : Decidable op.FloatSafe := by
  cases op <;> (unfold SMOp.FloatSafe; infer_instance)

/-- The row count of a possibly absent matrix (`len(E)` in numpy, zero when
`None`). -/
def matLen : Option NpMatrix → Nat
  | some E => E.rows.length
  | none => 0

/-- The parallel-lists invariant of one kind: matrix and metadata agree in
length, an absent matrix means an empty list, and the matrix is rectangular. -/
def KindInv (emb : Option NpMatrix) (meta : List MetaEntry) : Prop :=
  matLen emb = meta.length ∧
  (emb = none → meta = []) ∧
  (∀ E, emb = some E → E.IsRect)

/-- The invariant for both kinds of a `SearchManager`. -/
def SMInv (st : SMState) : Prop :=
  KindInv st.embeddings st.metadata ∧ KindInv st.image_embeddings st.image_metadata

instance (emb : Option NpMatrix) (meta : List MetaEntry) : Decidable (KindInv emb meta) := by
  unfold KindInv; infer_instance

instance (st : SMState) : Decidable (SMInv st) := by
  unfold SMInv; infer_instance

/-! ### Cosine search (search_manager.py, `SearchManager.search`) -/

/-- A single search result (class `SearchResult`); `file_name` is filled from
the metadata record, which always carries one. -/
structure SearchResult where
  file_path : String
  chunk_index : Nat
  chunk_text : String
  similarity_score : ℚ
  file_name : String
deriving DecidableEq

/-- Dot product of two vectors (`np.dot` on matching 1-D shapes). -/
def dotQ (a b : List ℚ) : ℚ := ((a.zip b).map (fun p => p.1 * p.2)).sum

/-- The epsilon `1e-8` guarding the row-norm division. -/
def normEps : ℚ := 1 / 100000000

namespace SearchManager

/-- The sweep of one kind inside `search`: skipped when the index is absent
or empty, the query dimension does not match, or the query norm is not
positive; otherwise every row is scored against the normalized query.
`l2norm` abstracts `np.linalg.norm` on a 1-D vector. -/
def sweepKind (l2norm : List ℚ → ℚ) (emb : Option NpMatrix) (meta : List MetaEntry)
    (query : List ℚ) : List SearchResult :=
  match emb with
  | some E =>
    if E.rows.length > 0 then
      if query.length = E.ncols then
        let query_norm := l2norm query
        if query_norm > 0 then
          let query_normalized := query.map (fun x => x / query_norm)
          let embeddings_normalized :=
            E.rows.map (fun row => row.map (fun x => x / (l2norm row + normEps)))
          let similarities := embeddings_normalized.map (fun row => dotQ row query_normalized)
          (meta.zip similarities).map (fun p =>
            { file_path := p.1.file_path, chunk_index := p.1.chunk_index,
              chunk_text := p.1.chunk_text, similarity_score := p.2,
              file_name := p.1.file_name })
        else []
      else []
    else []
  | none => []

/-- Model of `SearchManager.search(query_embedding, top_k,
image_query_embedding)`: validate `top_k`, sweep the text kind, sweep the
image kind when an image query is supplied, concatenate, sort by similarity
descending (stable), and truncate to `top_k`. The source flattens a 2-D
query first; the model takes the 1-D vector. -/
def search (l2norm : List ℚ → ℚ) (st : SMState) (query_embedding : List ℚ)
    (top_k : Int) (image_query_embedding : Option (List ℚ)) :
    Except String (List SearchResult) :=
  if top_k ≤ 0 then .error "top_k must be positive"
  else
    let text_results := sweepKind l2norm st.embeddings st.metadata query_embedding
    let image_results :=
      match image_query_embedding with
      | some qi => sweepKind l2norm st.image_embeddings st.image_metadata qi
      | none => []
    let all_results := text_results ++ image_results
    let sorted := all_results.mergeSort
      (fun a b => decide (b.similarity_score ≤ a.similarity_score))
    .ok (sorted.take top_k.toNat)

end SearchManager

/-! ### File metadata (file_metadata.py) -/

/-- The `FileMetadata` dataclass, field for field. Note the source defines
no `is_image_type` field. -/
structure FileMetadata where
  file_path : String
  file_name : String
  file_extension : String
  file_size_bytes : Nat
  is_text_type : Bool
  modified_time : Option Int := none
  created_time : Option Int := none
deriving DecidableEq

/-- Model of `FileMetadata.from_path`: the stat results (size, mtime, ctime)
are inputs; classification is by lowercased extension. -/
def FileMetadata.from_path (file_path : String) (st_size : Nat) (st_mtime st_ctime : Int) :
    FileMetadata :=
  let extension := lowerStr (pathSuffix file_path)
  { file_path := resolvePath file_path
    file_name := pathName file_path
    file_extension := extension
    file_size_bytes := st_size
    is_text_type := textExtensions.contains extension
    modified_time := some st_mtime
    created_time := some st_ctime }

/-- A Python attribute value of a `FileMetadata` object. -/
inductive AttrVal where
  | str (s : String)
  | nat (n : Nat)
  | bool (b : Bool)
  | time (t : Option Int)
  | rat (q : ℚ)
deriving DecidableEq

/-- Python attribute lookup on a `FileMetadata` object: the dataclass fields
and the two size properties; any other name raises `AttributeError`,
modelled by `none`. -/
def FileMetadata.getattr (m : FileMetadata) : String → Option AttrVal
  | "file_path" => some (.str m.file_path)
  | "file_name" => some (.str m.file_name)
  | "file_extension" => some (.str m.file_extension)
  | "file_size_bytes" => some (.nat m.file_size_bytes)
  | "is_text_type" => some (.bool m.is_text_type)
  | "modified_time" => some (.time m.modified_time)
  | "created_time" => some (.time m.created_time)
  | "file_size_kb" => some (.rat ((m.file_size_bytes : ℚ) / 1024))
  | "file_size_mb" => some (.rat ((m.file_size_bytes : ℚ) / (1024 * 1024)))
  | _ => none

namespace ImageFileHandler

/-- The handler extension set `self.supported_extensions`. -/
def supported_extensions : List String := [".png", ".jpg", ".jpeg"]

/-- Model of `ImageFileHandler.can_handle`: the source evaluates
`metadata.is_image_type and metadata.file_extension in self.supported_extensions`;
the first attribute access is modelled through `FileMetadata.getattr`. -/
def can_handle (metadata : FileMetadata) : Except String Bool :=
  match metadata.getattr "is_image_type" with
  | none => .error "AttributeError: FileMetadata object has no attribute is_image_type"
  | some (.bool b) => .ok (b && supported_extensions.contains metadata.file_extension)
  | some _ => .error "TypeError"

end ImageFileHandler

/-! ### Index catalog and change detection (index_manager.py) -/

/-- A row of the `file_index` table (class `FileIndexEntry`). -/
structure FileIndexEntry where
  file_path : String
  file_hash : String
  file_size : Nat
  modified_time : Option Int
  indexed_time : Option Int
  extension : String
  is_text_type : Bool
  num_chunks : Option Nat
  embedding_dimension : Option Nat
deriving DecidableEq

/-- The catalog table, keyed by `file_path` (the primary key). -/
abbrev Catalog := List (String × FileIndexEntry)

namespace IndexManager

/-- Model of `IndexManager.get_index_entry`: the row with the given primary
key, if any. -/
def get_index_entry (catalog : Catalog) (file_path : String) : Option FileIndexEntry :=
  catalog.lookup file_path

/-- Model of `IndexManager.compute_file_hash`: SHA-256 over the file bytes.
The streaming in 8 KiB chunks digests exactly the whole byte sequence, so
the model applies the abstract `sha256` to the bytes read from `fs`. -/
def compute_file_hash (sha256 : List Nat → String) (fs : String → List Nat)
    (file_path : String) : String :=
  sha256 (fs file_path)

/-- The strict mtime comparison of `has_changed`: it fires only when both
timestamps are present (the truthiness guard of the source). -/
def mtimeStrictlyBefore (entry : FileIndexEntry) (metadata : FileMetadata) : Bool :=
  match entry.modified_time, metadata.modified_time with
  | some a, some b => decide (a < b)
  | _, _ => false

/-- Model of `IndexManager.has_changed`. The first component is the returned
boolean; the second records whether `compute_file_hash` was invoked, so the
deferred-hashing behaviour is visible in the model. -/
def has_changed (catalog : Catalog) (sha256 : List Nat → String) (fs : String → List Nat)
    (metadata : FileMetadata) : Bool × Bool :=
  match get_index_entry catalog metadata.file_path with
  | none => (true, false)
  | some entry =>
    if entry.file_size ≠ metadata.file_size_bytes then (true, false)
    else if mtimeStrictlyBefore entry metadata then (true, false)
    else
      let file_hash := compute_file_hash sha256 fs metadata.file_path
      if entry.file_hash ≠ file_hash then (true, true) else (false, true)

/-- Model of `IndexManager.add_entry` (`INSERT OR REPLACE` on the primary
key); `now` stands for `datetime.now()`. -/
def add_entry (catalog : Catalog) (metadata : FileMetadata) (file_hash : String)
    (num_chunks embedding_dimension : Option Nat) (now : Int) : Catalog :=
  (metadata.file_path,
    { file_path := metadata.file_path
      file_hash := file_hash
      file_size := metadata.file_size_bytes
      modified_time := metadata.modified_time
      indexed_time := some now
      extension := metadata.file_extension
      is_text_type := metadata.is_text_type
      num_chunks := num_chunks
      embedding_dimension := embedding_dimension }) ::
  catalog.filter (fun p => p.1 != metadata.file_path)

end IndexManager

/-! ### Blob storage and the per-file pipeline (storage_manager.py,
filex/embedding/repo_manager.py) -/

/-- The result dictionary a file handler returns under the key
`embeddings`. -/
structure ProcessEmbeddings where
  chunks : Option (List String)
  embeddings : Option NpMatrix
  num_chunks : Option Nat
  embedding_dimension : Option Nat
deriving DecidableEq

/-- The result dictionary of `FileProcessorRouter.process_file`. -/
structure ProcessResult where
  processed : Bool
  embeddings : Option ProcessEmbeddings
deriving DecidableEq

/-- The blob store: the source writes `embeddings/<sha256(path)>.npy`; the
path-to-key hash is injective by assumption, so blobs are keyed by path in
the model. -/
abbrev BlobStore := List (String × NpMatrix)

/-- Model of `StorageManager.save_processing_result` restricted to what the
pipeline later relies on: the embeddings blob of the file is (re)written. -/
def StorageManager.save_processing_result (blobs : BlobStore) (file_path : String)
    (embeddings : NpMatrix) : BlobStore :=
  (file_path, embeddings) :: blobs.filter (fun p => p.1 != file_path)

/-- The state a `RepositoryManager` mutates across one `index_file` call. -/
structure RepoState where
  catalog : Catalog
  blobs : BlobStore
  sm : SMState
  disk : Disk
deriving DecidableEq

def emptyRepoState : RepoState := ⟨[], [], emptySM, emptyDisk⟩

/-- The dictionary `RepositoryManager.index_file` returns (both shapes,
unused keys `none`). -/
structure IndexFileResult where
  file_path : String
  indexed : Bool
  reason : Option String := none
  entry : Option FileIndexEntry := none
  processed : Option Bool := none
  num_chunks : Option Nat := none
  embedding_dimension : Option Nat := none
deriving DecidableEq

/-- Model of `RepositoryManager.index_file(file_path, force)`. The file
exists (its metadata snapshot and bytes are inputs), the processor outcome
is the input `result`, and `now` stands for `datetime.now()`. The
`add_file_embeddings` call is wrapped in try/except in the source: an error
is logged and swallowed, but the state mutation the failed call performed
is kept. -/
def RepositoryManager.index_file (st : RepoState) (sha256 : List Nat → String)
    (fs : String → List Nat) (metadata : FileMetadata) (result : ProcessResult)
    (force : Bool) (now : Int) : IndexFileResult × RepoState :=
  if !force && !(IndexManager.has_changed st.catalog sha256 fs metadata).1 then
    ({ file_path := metadata.file_path, indexed := false
       reason := some "File has not changed since last indexing"
       entry := IndexManager.get_index_entry st.catalog metadata.file_path }, st)
  else
    let file_hash := IndexManager.compute_file_hash sha256 fs metadata.file_path
    let num_chunks := result.embeddings.bind (fun e => e.num_chunks)
    let embedding_dimension := result.embeddings.bind (fun e => e.embedding_dimension)
    let catalog1 := IndexManager.add_entry st.catalog metadata file_hash
      num_chunks embedding_dimension now
    let rest :=
      if result.processed then
        match result.embeddings with
        | some pe =>
          match pe.embeddings with
          | some emb =>
            let blobs1 := StorageManager.save_processing_result st.blobs metadata.file_path emb
            match pe.chunks with
            | some chunks =>
              if chunks.length > 0 then
                let r := SearchManager.add_file_embeddings st.sm st.disk
                  metadata.file_path chunks emb false
                (blobs1, r.1, r.2.1)
              else (blobs1, st.sm, st.disk)
            | none => (blobs1, st.sm, st.disk)
          | none => (st.blobs, st.sm, st.disk)
        | none => (st.blobs, st.sm, st.disk)
      else (st.blobs, st.sm, st.disk)
    ({ file_path := metadata.file_path, indexed := true
       processed := some result.processed
       num_chunks := num_chunks
       embedding_dimension := embedding_dimension },
     { catalog := catalog1, blobs := rest.1, sm := rest.2.1, disk := rest.2.2 })

/-! ### Chunkers (chunkers.py) -/

namespace FixedSizeChunker

/-- The while loop of `FixedSizeChunker.chunk`: emit the window
`text[start : start + chunk_size]` whenever it contains a non-whitespace
character (the truthiness of `chunk.strip()`), then advance by `step`.
Constructor validation guarantees `0 < step`. -/
def walk (chunk_size step : Nat) (text : List Char) (start : Nat) (hstep : 0 < step) :
    List (List Char) :=
  if h : start < text.length then
    let c := (text.drop start).take chunk_size
    (if c.any (fun ch => !ch.isWhitespace) then [c] else []) ++
      walk chunk_size step text (start + step) hstep
  else []
termination_by text.length - start
decreasing_by omega

/-- Model of `FixedSizeChunker.chunk`; the constructor checks
`chunk_size > 0`, `overlap ≥ 0` and `overlap < chunk_size` are the
hypotheses. -/
def chunk (chunk_size overlap : Nat) (hov : overlap < chunk_size) (text : List Char) :
    List (List Char) :=
  if text = [] then []
  else
    let chunks := walk chunk_size (chunk_size - overlap) text 0 (by omega)
    if chunks = [] then [text] else chunks

end FixedSizeChunker

namespace SentenceAwareChunker

/-- A sentence-ending character of the split regex `[.!?]+`. -/
def isSentenceEnder (c : Char) : Bool := c == '.' || c == '!' || c == '?'

/-- Auxiliary bound for the termination of the splitter. -/
def length_dropWhile_le {α : Type} (p : α → Bool) (l : List α) :
    (l.dropWhile p).length ≤ l.length := by
  induction l with
  | nil => simp [List.dropWhile]
  | cons a l ih =>
    by_cases h : p a
    · simpa [List.dropWhile, h] using Nat.le_succ_of_le ih
    · simp [List.dropWhile, h]

/-- The splitter of `_split_into_sentences`: `re.split` on
`[.!?]+[\s\n]+|[.!?]+$`. A maximal run of enders followed by whitespace (the
whitespace is consumed) or by the end of the string is a separator; a run
followed by anything else stays inside the sentence. Matches cannot start
inside a failed run, so the left-to-right scan below is the regex
behaviour. -/
def sentSplit (acc : List Char) : List Char → List (List Char)
  | [] => [acc.reverse]
  | c :: rest =>
    if isSentenceEnder c then
      let run := c :: rest.takeWhile isSentenceEnder
      match hr : rest.dropWhile isSentenceEnder with
      | [] => [acc.reverse, []]
      | d :: tail =>
        if d.isWhitespace then
          acc.reverse :: sentSplit [] ((d :: tail).dropWhile Char.isWhitespace)
        else
          sentSplit (run.reverse ++ acc) (d :: tail)
    else
      sentSplit (c :: acc) rest
termination_by l => l.length
decreasing_by
  · have h1 : (d :: tail).length ≤ rest.length := by
      rw [← hr]; exact length_dropWhile_le _ _
    have h2 := length_dropWhile_le Char.isWhitespace (d :: tail)
    simp only [List.length_cons] at *
    omega
  · have h1 : (d :: tail).length ≤ rest.length := by
      rw [← hr]; exact length_dropWhile_le _ _
    simp only [List.length_cons] at *
    omega
  · simp

/-- The stripped form of one split part (`s.strip()`). -/
def stripChars (l : List Char) : List Char :=
  ((l.dropWhile Char.isWhitespace).reverse.dropWhile Char.isWhitespace).reverse

/-- Model of `SentenceAwareChunker._split_into_sentences`: split, strip,
drop empties. -/
def split_into_sentences (text : List Char) : List (List Char) :=
  ((sentSplit [] text).map stripChars).filter (fun s => !s.isEmpty)

/-- Model of `' '.join(current_chunk)`. -/
def joinSpace : List (List Char) → List Char
  | [] => []
  | [s] => s
  | s :: rest => s ++ ' ' :: joinSpace rest

/-- The greedy accumulation loop of `SentenceAwareChunker.chunk`, including
the final flush of the tail. -/
def accumulate (target max_chunk : Nat) :
    List (List Char) → List (List Char) → Nat → List (List Char)
  | [], current, _ => if current.isEmpty then [] else [joinSpace current]
  | s :: rest, current, current_size =>
    if current_size + s.length > max_chunk && !current.isEmpty then
      joinSpace current :: accumulate target max_chunk rest [s] s.length
    else if current_size + s.length > target && !current.isEmpty then
      joinSpace current :: accumulate target max_chunk rest [s] s.length
    else
      accumulate target max_chunk rest (current ++ [s]) (current_size + s.length + 1)

/-- Model of `SentenceAwareChunker.chunk`. -/
def chunk (target max_chunk : Nat) (text : List Char) : List (List Char) :=
  if text = [] then []
  else
    let sentences := split_into_sentences text
    if sentences = [] then [text]
    else
      let chunks := accumulate target max_chunk sentences [] 0
      if chunks = [] then [text] else chunks

end SentenceAwareChunker

/-! ### Indexing-job admission (web_app.py, `index_files`) -/

/-- The status values of a background indexing task. -/
inductive TaskStatus where
  | starting
  | indexing
  | completed
  | error
deriving DecidableEq

/-- A task record of `state.indexing_tasks`. -/
structure IndexingTask where
  status : TaskStatus
  indexed : Nat
  total : Nat
  errors : Nat
  message : String
  error_detail : Option String := none
deriving DecidableEq

/-- The task table guarded by `state.lock`, keyed by the canonical
repository path. -/
abbrev TaskTable := List (String × IndexingTask)

namespace WebApp

/-- The fresh record installed for a newly admitted job. -/
def freshTask : IndexingTask :=
  { status := .starting, indexed := 0, total := 0, errors := 0
    message := "Initializing indexing..." }

/-- Model of the critical section of `POST /api/index` (`with state.lock`):
reject with 409 when the repository already has a task in
`{starting, indexing}`, echoing its counters and leaving the table as is;
otherwise install a fresh `starting` record. -/
def index_files_admission (tasks : TaskTable) (repo_id : String) :
    (Option (TaskStatus × Nat × Nat)) × TaskTable :=
  match tasks.lookup repo_id with
  | some existing_task =>
    if existing_task.status = .starting ∨ existing_task.status = .indexing then
      (some (existing_task.status, existing_task.indexed, existing_task.total), tasks)
    else
      (none, (repo_id, freshTask) :: tasks.filter (fun p => p.1 != repo_id))
  | none => (none, (repo_id, freshTask) :: tasks.filter (fun p => p.1 != repo_id))

end WebApp

/-! ### Concrete fixtures used by witnesses and counterexamples -/

namespace Fixtures

/-- A state whose text kind holds one row of another file. -/
def stOther : SMState :=
  { embeddings := some (NpMatrix.mk [[5, 6]] 2)
    metadata := [{ file_path := "/w/other.txt", file_name := "other.txt",
                   chunk_index := 0, chunk_text := "o" }]
    image_embeddings := none
    image_metadata := [] }

def mOther : MetaEntry :=
  { file_path := "/w/other.txt", file_name := "other.txt", chunk_index := 0, chunk_text := "o" }

/-- Operations for the C1 witness. -/
def opsC1 : List SMOp :=
  [SMOp.add "/w/a.txt" ["alpha"] (NpMatrix.mk [[1, 2]] 2) false,
   SMOp.add "/w/b.png" ["/w/b.png"] (NpMatrix.mk [[1, 2, 3]] 3) false,
   SMOp.remove "/w/a.txt" none]

/-- A running task used by the C9 witness. -/
def busyTask : IndexingTask :=
  { status := .indexing, indexed := 3, total := 10, errors := 0, message := "Indexing files..." }

/-- Stand-in digest function: the decimal length of the byte list. -/
def shaStub : List Nat → String := fun l => Nat.repr l.length

/-- Stand-in filesystem: every path holds the same three bytes. -/
def fsStub : String → List Nat := fun _ => [7, 8, 9]

/-- The catalog row present before the C3 scenario. -/
def entryC3 : FileIndexEntry :=
  { file_path := "/w/a.txt", file_hash := "3", file_size := 3, modified_time := some 100,
    indexed_time := some 0, extension := ".txt", is_text_type := true,
    num_chunks := some 1, embedding_dimension := some 2 }

def rsC3 : RepoState :=
  { catalog := [("/w/a.txt", entryC3)], blobs := [], sm := emptySM, disk := emptyDisk }

/-- The metadata snapshot of the touched file: same size, mtime moved
forward. -/
def mdC3 : FileMetadata :=
  { file_path := "/w/a.txt", file_name := "a.txt", file_extension := ".txt",
    file_size_bytes := 3, is_text_type := true, modified_time := some 101,
    created_time := some 100 }

/-- The first-indexing snapshot of the same file, before the touch. -/
def mdC3pre : FileMetadata :=
  { file_path := "/w/a.txt", file_name := "a.txt", file_extension := ".txt",
    file_size_bytes := 3, is_text_type := true, modified_time := some 100,
    created_time := some 100 }

def peC3 : ProcessEmbeddings :=
  { chunks := some ["abc"], embeddings := some (NpMatrix.mk [[1, 2]] 2),
    num_chunks := some 1, embedding_dimension := some 2 }

def prC3 : ProcessResult := { processed := true, embeddings := some peC3 }

/-- A repository state whose text index has width 2, so that adding a
width-3 matrix makes the vector-index update raise. -/
def rsC10 : RepoState :=
  { catalog := [], blobs := []
    sm := { embeddings := some (NpMatrix.mk [[1, 1]] 2)
            metadata := [{ file_path := "/w/b.txt", file_name := "b.txt",
                           chunk_index := 0, chunk_text := "x" }]
            image_embeddings := none
            image_metadata := [] }
    disk := emptyDisk }

def mdC10 : FileMetadata :=
  { file_path := "/w/c.txt", file_name := "c.txt", file_extension := ".txt",
    file_size_bytes := 3, is_text_type := true, modified_time := some 50,
    created_time := some 50 }

def peC10 : ProcessEmbeddings :=
  { chunks := some ["y"], embeddings := some (NpMatrix.mk [[1, 2, 3]] 3),
    num_chunks := some 1, embedding_dimension := some 3 }

def prC10 : ProcessResult := { processed := true, embeddings := some peC10 }

/-- Validity of the fixed-size chunker parameters used by the C6 witness. -/
def hovC6 : (50 : Nat) < 512 := by decide

end Fixtures

/-! ### Helper lemmas on lists and on the removal primitive -/

theorem mem_snd_of_mem_enum {α : Type} {p : Nat × α} {l : List α} (h : p ∈ l.enum) :
    p.2 ∈ l := by
  have : p.2 ∈ l.enum.map Prod.snd := List.mem_map_of_mem Prod.snd h
  simpa [List.enum_map_snd] using this

theorem mem_snd_of_mem_enumFrom {α : Type} {p : Nat × α} {n : Nat} {l : List α}
    (h : p ∈ List.enumFrom n l) : p.2 ∈ l := by
  have : p.2 ∈ (List.enumFrom n l).map Prod.snd := List.mem_map_of_mem Prod.snd h
  simpa [List.enumFrom_map_snd] using this

/-- Length of an index-based gather: when every index is in range, each
lookup succeeds. -/
theorem length_filterMap_getElem {α : Type} (l : List α) (idxs : List Nat)
    (h : ∀ i ∈ idxs, i < l.length) :
    (idxs.filterMap (fun i => l[i]?)).length = idxs.length := by
  induction idxs with
  | nil => simp
  | cons i rest ih =>
    have hi : i < l.length := h i (List.mem_cons_self i rest)
    have hrest : ∀ j ∈ rest, j < l.length := fun j hj => h j (List.mem_cons_of_mem i hj)
    simp [List.filterMap_cons, List.getElem?_eq_getElem hi, ih hrest]

/-- Gathering a whole list by its own range of indices returns the list. -/
theorem range_filterMap_getElem {α : Type} (l : List α) :
    ((List.range l.length).filterMap (fun i => l[i]?)) = l := by
  induction l with
  | nil => simp
  | cons a t ih =>
    rw [List.length_cons, List.range_succ_eq_map]
    simp only [List.filterMap_cons, List.getElem?_cons_zero, List.filterMap_map]
    have : ((fun i => (a :: t)[i]?) ∘ Nat.succ) = fun i => t[i]? := by
      funext i; simp [Function.comp, List.getElem?_cons_succ]
    rw [this, ih]

/-- Gathering the left block of an append by its range of indices. -/
theorem range_filterMap_getElem_append {α : Type} (l1 l2 : List α) :
    ((List.range l1.length).filterMap (fun i => (l1 ++ l2)[i]?)) = l1 := by
  have hcong : ∀ i ∈ List.range l1.length, (l1 ++ l2)[i]? = l1[i]? := by
    intro i hi
    rw [List.getElem?_append]
    simp [List.mem_range.mp hi]
  calc (List.range l1.length).filterMap (fun i => (l1 ++ l2)[i]?)
      = (List.range l1.length).filterMap (fun i => l1[i]?) := by
        apply List.filterMap_congr
        intro i hi; rw [hcong i hi]
    _ = l1 := range_filterMap_getElem l1

namespace SearchManager

theorem mem_removalIndices {meta : List MetaEntry} {fp : String} {i : Nat} :
    i ∈ removalIndices meta fp ↔ ∃ m, meta[i]? = some m ∧ m.file_path = fp := by
  unfold removalIndices
  constructor
  · intro h
    rcases List.mem_map.mp h with ⟨p, hp, hfst⟩
    rcases List.mem_filter.mp hp with ⟨hmem, hpred⟩
    refine ⟨p.2, ?_, by simpa using hpred⟩
    rw [← hfst]
    exact List.mem_enum_iff_getElem?.mp hmem
  · rintro ⟨m, hm, hfp⟩
    apply List.mem_map.mpr
    refine ⟨(i, m), List.mem_filter.mpr ⟨List.mem_enum_iff_getElem?.mpr hm, by simpa using hfp⟩, rfl⟩

theorem removalIndices_eq_nil {meta : List MetaEntry} {fp : String}
    (h : ∀ m ∈ meta, m.file_path ≠ fp) : removalIndices meta fp = [] := by
  unfold removalIndices
  rw [List.filter_eq_nil_iff.mpr, List.map_nil]
  intro p hp
  simpa using h p.2 (mem_snd_of_mem_enum hp)

/-- When no metadata record carries the path, `removeRowsForPath` is a
no-op. -/
theorem removeRowsForPath_noop (emb : Option NpMatrix) (meta : List MetaEntry) (fp : String)
    (h : ∀ m ∈ meta, m.file_path ≠ fp) :
    removeRowsForPath emb meta fp = ((emb, meta), false) := by
  unfold removeRowsForPath
  simp [removalIndices_eq_nil h]

/-- The metadata the removal keeps never carries the removed path. -/
theorem removeRowsForPath_no_fp (emb : Option NpMatrix) (meta : List MetaEntry) (fp : String) :
    ∀ m ∈ (removeRowsForPath emb meta fp).1.2, m.file_path ≠ fp := by
  intro m hm hfp
  unfold removeRowsForPath at hm
  split at hm
  case isTrue hrem =>
    split at hm
    case isTrue hkeep =>
      simp only at hm
      rcases List.mem_filterMap.mp hm with ⟨i, hi, hget⟩
      have hnot : i ∉ removalIndices meta fp := by
        simp only [keepIndices, List.mem_filter, List.mem_range] at hi
        simpa using hi.2
      exact hnot (mem_removalIndices.mpr ⟨m, hget, hfp⟩)
    case isFalse hkeep =>
      simp only at hm
      exact List.not_mem_nil m hm
  case isFalse hrem =>
    simp only at hm
    rcases List.mem_iff_getElem?.mp hm with ⟨i, hi⟩
    have hmemr : i ∈ removalIndices meta fp := mem_removalIndices.mpr ⟨m, hi, hfp⟩
    simp only [ne_eq, not_not] at hrem
    rw [hrem] at hmemr
    exact List.not_mem_nil i hmemr

theorem mem_keepIndices {meta : List MetaEntry} {fp : String} {i : Nat} :
    i ∈ keepIndices meta fp ↔ i < meta.length ∧ i ∉ removalIndices meta fp := by
  simp [keepIndices, List.mem_filter, List.mem_range]

theorem matLen_some (E : NpMatrix) : matLen (some E) = E.rows.length := rfl

theorem matLen_none : matLen none = 0 := rfl

/-- A kind stays well formed across `removeRowsForPath`. -/
theorem removeRowsForPath_kindInv (emb : Option NpMatrix) (meta : List MetaEntry) (fp : String)
    (hinv : KindInv emb meta) :
    KindInv (removeRowsForPath emb meta fp).1.1 (removeRowsForPath emb meta fp).1.2 := by
  obtain ⟨hlen, hnone, hrect⟩ := hinv
  unfold removeRowsForPath
  split
  case isFalse hrem => exact ⟨hlen, hnone, hrect⟩
  case isTrue hrem =>
    split
    case isFalse hkeep => exact ⟨rfl, fun _ => rfl, fun E hE => by cases hE⟩
    case isTrue hkeep =>
      cases emb with
      | none =>
        have hm : meta = [] := hnone rfl
        subst hm
        exact absurd (by simp [removalIndices]) hrem
      | some E =>
        have hlen' : E.rows.length = meta.length := by simpa [matLen] using hlen
        refine ⟨?_, ?_, ?_⟩
        · simp only [gatherRows, matLen_some]
          rw [length_filterMap_getElem E.rows _ (fun i hi => by
                rw [hlen']; exact (mem_keepIndices.mp hi).1),
              length_filterMap_getElem meta _ (fun i hi => (mem_keepIndices.mp hi).1)]
        · intro h; simp [gatherRows] at h
        · intro F hF
          simp only [gatherRows, Option.some.injEq] at hF
          intro r hr
          rw [← hF] at hr
          simp only at hr
          rcases List.mem_filterMap.mp hr with ⟨i, _, hget⟩
          rcases List.getElem?_eq_some.mp hget with ⟨hlt, hEq⟩
          rw [← hF, ← hEq]
          simpa using hrect E rfl _ (List.getElem_mem hlt)

/-- The matrix a removal keeps has the width of the matrix it started
from. -/
theorem removeRowsForPath_ncols (E : NpMatrix) (meta : List MetaEntry) (fp : String)
    (F : NpMatrix) (hF : (removeRowsForPath (some E) meta fp).1.1 = some F) :
    F.ncols = E.ncols := by
  unfold removeRowsForPath at hF
  split at hF
  case isFalse hrem => cases hF; rfl
  case isTrue hrem =>
    split at hF
    case isFalse hkeep => cases hF
    case isTrue hkeep =>
      simp only [gatherRows, Option.some.injEq] at hF
      rw [← hF]

/-- A removal never creates a matrix out of `None`. -/
theorem removeRowsForPath_none (meta : List MetaEntry) (fp : String) :
    (removeRowsForPath none meta fp).1.1 = none := by
  unfold removeRowsForPath
  split
  · split
    · simp [gatherRows]
    · rfl
  · rfl

theorem fst_ite_pair {α β : Type} (c : Prop) [Decidable c] (a : α) (x y : β) :
    (if c then (a, x) else (a, y)).1 = a := by split <;> rfl

/-- The in-memory state `remove_file_embeddings` leaves, spelled out per
kind. -/
theorem resolvePath_eq (p : String) : resolvePath p = p := rfl

theorem remove_fst (st : SMState) (d : Disk) (fp : String) (isImg : Option Bool) :
    (remove_file_embeddings st d fp isImg).1 =
      { embeddings := (if isImg = none ∨ isImg = some false then
            removeRowsForPath st.embeddings st.metadata fp
          else ((st.embeddings, st.metadata), false)).1.1
        metadata := (if isImg = none ∨ isImg = some false then
            removeRowsForPath st.embeddings st.metadata fp
          else ((st.embeddings, st.metadata), false)).1.2
        image_embeddings := (if isImg = none ∨ isImg = some true then
            removeRowsForPath st.image_embeddings st.image_metadata fp
          else ((st.image_embeddings, st.image_metadata), false)).1.1
        image_metadata := (if isImg = none ∨ isImg = some true then
            removeRowsForPath st.image_embeddings st.image_metadata fp
          else ((st.image_embeddings, st.image_metadata), false)).1.2 } := by
  simp only [remove_file_embeddings, resolvePath_eq, fst_ite_pair]

/-- Removal preserves the invariant of both kinds. -/
theorem remove_preserves_inv (st : SMState) (d : Disk) (fp : String) (isImg : Option Bool)
    (hinv : SMInv st) : SMInv (remove_file_embeddings st d fp isImg).1 := by
  obtain ⟨h1, h2⟩ := hinv
  rw [remove_fst]
  constructor
  · by_cases hc : isImg = none ∨ isImg = some false
    · simpa only [hc, if_pos] using removeRowsForPath_kindInv _ _ _ h1
    · simpa only [hc, if_neg] using h1
  · by_cases hc : isImg = none ∨ isImg = some true
    · simpa only [hc, if_pos] using removeRowsForPath_kindInv _ _ _ h2
    · simpa only [hc, if_neg] using h2

theorem getKind_setKind (st : SMState) (k : Bool) (emb : Option NpMatrix)
    (meta : List MetaEntry) : getKind (setKind st k emb meta) k = (emb, meta) := by
  cases k <;> rfl

theorem setKind_inv (st : SMState) (k : Bool) (emb : Option NpMatrix) (meta : List MetaEntry)
    (hst : SMInv st) (hk : KindInv emb meta) : SMInv (setKind st k emb meta) := by
  cases k
  · exact ⟨hk, hst.2⟩
  · exact ⟨hst.1, hk⟩

theorem kindInv_getKind (st : SMState) (k : Bool) (hinv : SMInv st) :
    KindInv (getKind st k).1 (getKind st k).2 := by
  cases k
  · exact hinv.1
  · exact hinv.2

/-- The targeted kind of the state a `remove_file_embeddings` with an
explicit kind leaves, in terms of the per-kind primitive. -/
theorem getKind_remove_some (st : SMState) (d : Disk) (fp : String) (k : Bool) :
    getKind (remove_file_embeddings st d fp (some k)).1 k =
      (removeRowsForPath (getKind st k).1 (getKind st k).2 fp).1 := by
  rw [remove_fst]
  cases k <;> simp [getKind]

theorem mkMetadataEntries_length (fp : String) (chunks : List String) :
    (mkMetadataEntries fp chunks).length = chunks.length := by
  simp [mkMetadataEntries]

theorem mkMetadataEntries_fp (fp : String) (chunks : List String) :
    ∀ m ∈ mkMetadataEntries fp chunks, m.file_path = fp := by
  intro m hm
  rcases List.mem_map.mp hm with ⟨p, _, hp⟩
  rw [← hp]

/-- Adding a rectangular matrix preserves the invariant of both kinds,
whether or not the call errors. -/
theorem add_preserves_inv (st : SMState) (d : Disk) (fp : String) (chunks : List String)
    (V : NpMatrix) (b : Bool) (hrect : V.IsRect) (hinv : SMInv st) :
    SMInv (add_file_embeddings st d fp chunks V b).1 := by
  unfold add_file_embeddings
  split
  case isTrue => exact hinv
  case isFalse hcount =>
    simp only [ne_eq, not_not] at hcount
    simp only [resolvePath_eq]
    have hinv1 := remove_preserves_inv st d fp (some (targetIsImage fp b)) hinv
    have hremEq := getKind_remove_some st d fp (targetIsImage fp b)
    cases htgt : (getKind st (targetIsImage fp b)).1 with
    | none =>
      simp only [htgt]
      have hmeta0 : (getKind st (targetIsImage fp b)).2 = [] :=
        (kindInv_getKind st (targetIsImage fp b) hinv).2.1 htgt
      have hpost : getKind (remove_file_embeddings st d fp
          (some (targetIsImage fp b))).1 (targetIsImage fp b) = (none, []) := by
        rw [hremEq, htgt, hmeta0]
        rfl
      apply setKind_inv _ _ _ _ hinv1
      refine ⟨?_, ?_, ?_⟩
      · rw [hpost]
        simp [matLen, mkMetadataEntries_length, hcount]
      · intro h; cases h
      · intro E hE r hr
        cases hE
        exact hrect r hr
    | some E =>
      simp only [htgt]
      split
      case isTrue hdim => exact hinv1
      case isFalse hdim =>
        simp only [ne_eq, not_not] at hdim
        cases hcur : (getKind (remove_file_embeddings st d fp
            (some (targetIsImage fp b))).1 (targetIsImage fp b)).1 with
        | none => simp only [hcur]; exact hinv1
        | some Ecur =>
          simp only [hcur]
          have hkinv1 := kindInv_getKind _ (targetIsImage fp b) hinv1
          have hcols : Ecur.ncols = E.ncols := by
            apply removeRowsForPath_ncols E (getKind st (targetIsImage fp b)).2 fp Ecur
            rw [← htgt, ← hremEq]
            exact hcur
          apply setKind_inv _ _ _ _ hinv1
          refine ⟨?_, ?_, ?_⟩
          · have hlen1 : Ecur.rows.length =
                (getKind (remove_file_embeddings st d fp
                  (some (targetIsImage fp b))).1 (targetIsImage fp b)).2.length := by
              have h := hkinv1.1
              rw [hcur] at h
              simpa [matLen] using h
            simp [matLen, mkMetadataEntries_length, hcount, hlen1]
          · intro h; cases h
          · intro F hF r hr
            cases hF
            rcases List.mem_append.mp hr with hr1 | hr2
            · exact hkinv1.2.2 Ecur hcur r hr1
            · rw [hrect r hr2, hdim, ← hcols]

/-- The removal indices of a metadata list split into a path-free block
followed by a block that entirely carries the path. -/
theorem removalIndices_append (meta1 new : List MetaEntry) (fp : String)
    (hfree : ∀ m ∈ meta1, m.file_path ≠ fp) (hall : ∀ m ∈ new, m.file_path = fp) :
    removalIndices (meta1 ++ new) fp = List.range' meta1.length new.length := by
  unfold removalIndices
  rw [List.enum_append, List.filter_append]
  have h1 : (meta1.enum.filter (fun p => p.2.file_path == fp)) = [] := by
    apply List.filter_eq_nil_iff.mpr
    intro p hp
    simpa using hfree p.2 (mem_snd_of_mem_enum hp)
  have h2 : ((List.enumFrom meta1.length new).filter (fun p => p.2.file_path == fp))
      = List.enumFrom meta1.length new := by
    apply List.filter_eq_self.mpr
    intro p hp
    simpa using hall p.2 (mem_snd_of_mem_enumFrom hp)
  rw [h1, h2, List.nil_append, List.enumFrom_map_fst]

/-- The kept indices in the same situation: exactly the first block. -/
theorem keepIndices_append (meta1 new : List MetaEntry) (fp : String)
    (hfree : ∀ m ∈ meta1, m.file_path ≠ fp) (hall : ∀ m ∈ new, m.file_path = fp) :
    keepIndices (meta1 ++ new) fp = List.range meta1.length := by
  unfold keepIndices
  rw [removalIndices_append meta1 new fp hfree hall, List.length_append, List.range_add,
    List.filter_append]
  have h1 : (List.range meta1.length).filter
      (fun i => !((List.range' meta1.length new.length).contains i)) =
      List.range meta1.length := by
    apply List.filter_eq_self.mpr
    intro i hi
    have hlt : i < meta1.length := List.mem_range.mp hi
    simp only [Bool.not_eq_true']
    simp [List.mem_range'_1]
    omega
  have h2 : ((List.range new.length).map (fun x => meta1.length + x)).filter
      (fun i => !((List.range' meta1.length new.length).contains i)) = [] := by
    apply List.filter_eq_nil_iff.mpr
    intro i hi
    rcases List.mem_map.mp hi with ⟨x, hx, hix⟩
    have hlt : x < new.length := List.mem_range.mp hx
    rw [← hix]
    simp [List.mem_range'_1]
    omega
  rw [h1, h2, List.append_nil]

/-- Full characterization of `removeRowsForPath` on a state whose rows split
into a path-free block followed by the rows of the removed file. -/
theorem removeRowsForPath_append (E : NpMatrix) (r1 r2 : List (List ℚ))
    (hE : E.rows = r1 ++ r2) (meta1 new : List MetaEntry) (fp : String)
    (hfree : ∀ m ∈ meta1, m.file_path ≠ fp) (hall : ∀ m ∈ new, m.file_path = fp)
    (hlen : r1.length = meta1.length) (hnew : new ≠ []) :
    removeRowsForPath (some E) (meta1 ++ new) fp =
      (if meta1.isEmpty then ((none, []), true)
       else ((some (NpMatrix.mk r1 E.ncols), meta1), true)) := by
  have hrem := removalIndices_append meta1 new fp hfree hall
  have hkeep := keepIndices_append meta1 new fp hfree hall
  have hnewlen : 0 < new.length := List.length_pos.mpr hnew
  unfold removeRowsForPath
  rw [hrem, hkeep]
  have hremne : List.range' meta1.length new.length ≠ [] := by
    intro h
    have := List.range'_eq_nil.mp h
    omega
  rw [if_pos hremne]
  cases hm1 : meta1.isEmpty
  case true =>
    have : meta1 = [] := List.isEmpty_iff.mp (by simp [hm1])
    subst this
    simp
  case false =>
    have hne : meta1 ≠ [] := by
      intro h; subst h; simp at hm1
    have hrange : List.range meta1.length ≠ [] := by
      intro h
      have := List.range_eq_nil.mp h
      exact hne (List.length_eq_zero.mp this)
    rw [if_pos hrange]
    simp only [Bool.false_eq_true, if_false]
    have hmeta : (List.range meta1.length).filterMap (fun i => (meta1 ++ new)[i]?) = meta1 :=
      range_filterMap_getElem_append meta1 new
    have hrows : (List.range meta1.length).filterMap (fun i => E.rows[i]?) = r1 := by
      rw [hE, ← hlen]
      exact range_filterMap_getElem_append r1 r2
    simp only [gatherRows, hmeta, hrows]

/-- A record whose path differs from the removed one survives the
removal. -/
theorem mem_removeRowsForPath (emb : Option NpMatrix) (meta : List MetaEntry) (fp : String)
    (m : MetaEntry) (hm : m ∈ meta) (hne : m.file_path ≠ fp) :
    m ∈ (removeRowsForPath emb meta fp).1.2 := by
  rcases List.mem_iff_getElem?.mp hm with ⟨i, hget⟩
  have hilt : i < meta.length := by
    rcases List.getElem?_eq_some.mp hget with ⟨h, _⟩
    exact h
  have hiK : i ∈ keepIndices meta fp := by
    apply mem_keepIndices.mpr
    refine ⟨hilt, ?_⟩
    intro hmem
    rcases mem_removalIndices.mp hmem with ⟨m', hget', hfp'⟩
    rw [hget] at hget'
    cases hget'
    exact hne hfp'
  unfold removeRowsForPath
  split
  case isFalse => exact hm
  case isTrue hrem =>
    split
    case isTrue hkeep => exact List.mem_filterMap.mpr ⟨i, hiK, hget⟩
    case isFalse hkeep =>
      simp only [ne_eq, not_not] at hkeep
      rw [hkeep] at hiK
      exact absurd hiK (List.not_mem_nil i)

/-- As long as some other file keeps a row, a removal leaves a matrix of the
same width in place. -/
theorem removeRowsForPath_some (E : NpMatrix) (meta : List MetaEntry) (fp : String)
    (m : MetaEntry) (hm : m ∈ meta) (hne : m.file_path ≠ fp) :
    ∃ F, (removeRowsForPath (some E) meta fp).1.1 = some F ∧ F.ncols = E.ncols := by
  rcases List.mem_iff_getElem?.mp hm with ⟨i, hget⟩
  have hilt : i < meta.length := by
    rcases List.getElem?_eq_some.mp hget with ⟨h, _⟩
    exact h
  have hiK : i ∈ keepIndices meta fp := by
    apply mem_keepIndices.mpr
    refine ⟨hilt, ?_⟩
    intro hmem
    rcases mem_removalIndices.mp hmem with ⟨m', hget', hfp'⟩
    rw [hget] at hget'
    cases hget'
    exact hne hfp'
  unfold removeRowsForPath
  split
  case isFalse => exact ⟨E, rfl, rfl⟩
  case isTrue hrem =>
    split
    case isTrue hkeep =>
      exact ⟨NpMatrix.mk ((keepIndices meta fp).filterMap (fun j => E.rows[j]?)) E.ncols,
        rfl, rfl⟩
    case isFalse hkeep =>
      simp only [ne_eq, not_not] at hkeep
      rw [hkeep] at hiK
      exact absurd hiK (List.not_mem_nil i)

theorem setKind_setKind (st : SMState) (k : Bool) (e1 : Option NpMatrix) (m1 : List MetaEntry)
    (e2 : Option NpMatrix) (m2 : List MetaEntry) :
    setKind (setKind st k e1 m1) k e2 m2 = setKind st k e2 m2 := by
  cases k <;> rfl

theorem setKind_eta (st : SMState) (k : Bool) :
    setKind st k (getKind st k).1 (getKind st k).2 = st := by
  cases k <;> rfl

/-- A kind-targeted removal is a `setKind` with the per-kind primitive. -/
theorem remove_some_as_setKind (st : SMState) (d : Disk) (fp : String) (k : Bool) :
    (remove_file_embeddings st d fp (some k)).1 =
      setKind st k (removeRowsForPath (getKind st k).1 (getKind st k).2 fp).1.1
        (removeRowsForPath (getKind st k).1 (getKind st k).2 fp).1.2 := by
  rw [remove_fst]
  cases k <;> simp [getKind, setKind]

/-- A kind-targeted removal of a path absent from the kind leaves the state
unchanged. -/
theorem remove_some_state_noop (st : SMState) (d : Disk) (fp : String) (k : Bool)
    (hfree : ∀ m ∈ (getKind st k).2, m.file_path ≠ fp) :
    (remove_file_embeddings st d fp (some k)).1 = st := by
  rw [remove_some_as_setKind, removeRowsForPath_noop _ _ _ hfree]
  exact setKind_eta st k

/-- The value `add_file_embeddings` returns on the chunk-count mismatch. -/
theorem add_count_mismatch_eq (st : SMState) (d : Disk) (f : String) (C : List String)
    (V : NpMatrix) (b : Bool) (hcount : C.length ≠ V.rows.length) :
    add_file_embeddings st d f C V b =
      (st, d, some "Chunks and embeddings count mismatch") := by
  simp only [add_file_embeddings, if_pos hcount]

/-- The value `add_file_embeddings` returns on the dimension mismatch: the
internal removal has already run. -/
theorem add_dim_mismatch_eq (st : SMState) (d : Disk) (f : String) (C : List String)
    (V : NpMatrix) (b : Bool) (E0 : NpMatrix)
    (hcount : ¬C.length ≠ V.rows.length)
    (htgt : (getKind st (targetIsImage f b)).1 = some E0)
    (hdim : V.ncols ≠ E0.ncols) :
    add_file_embeddings st d f C V b =
      ((remove_file_embeddings st d f (some (targetIsImage f b))).1,
       (remove_file_embeddings st d f (some (targetIsImage f b))).2,
       some "Embedding dimension mismatch") := by
  simp only [add_file_embeddings, if_neg hcount, resolvePath_eq, htgt, if_pos hdim]

/-- The value `add_file_embeddings` returns on the successful vstack path. -/
theorem add_vstack_eq (st : SMState) (d : Disk) (f : String) (C : List String)
    (V : NpMatrix) (b : Bool) (E0 Ecur : NpMatrix)
    (hcount : ¬C.length ≠ V.rows.length)
    (htgt : (getKind st (targetIsImage f b)).1 = some E0)
    (hdim : ¬V.ncols ≠ E0.ncols)
    (hcur : (getKind (remove_file_embeddings st d f (some (targetIsImage f b))).1
      (targetIsImage f b)).1 = some Ecur) :
    add_file_embeddings st d f C V b =
      (setKind (remove_file_embeddings st d f (some (targetIsImage f b))).1
        (targetIsImage f b)
        (some (NpMatrix.mk (Ecur.rows ++ V.rows) Ecur.ncols))
        ((getKind (remove_file_embeddings st d f (some (targetIsImage f b))).1
          (targetIsImage f b)).2 ++ mkMetadataEntries f C),
       save_search_data
        (setKind (remove_file_embeddings st d f (some (targetIsImage f b))).1
          (targetIsImage f b)
          (some (NpMatrix.mk (Ecur.rows ++ V.rows) Ecur.ncols))
          ((getKind (remove_file_embeddings st d f (some (targetIsImage f b))).1
            (targetIsImage f b)).2 ++ mkMetadataEntries f C))
        (remove_file_embeddings st d f (some (targetIsImage f b))).2,
       none) := by
  simp only [add_file_embeddings, if_neg hcount, resolvePath_eq, htgt, if_neg hdim, hcur]

/-- Applying the same `add_file_embeddings` twice gives the state of one
application, provided the targeted kind holds a row of some other file (the
claim fails without that proviso: the second call then reaches
`np.vstack([None, ...])`). -/
theorem add_twice_eq (st : SMState) (d : Disk) (f : String) (C : List String)
    (V : NpMatrix) (b : Bool) (hinv : SMInv st) (m0 : MetaEntry)
    (hm0 : m0 ∈ (getKind st (targetIsImage f b)).2) (hne0 : m0.file_path ≠ f) :
    (add_file_embeddings (add_file_embeddings st d f C V b).1
      (add_file_embeddings st d f C V b).2.1 f C V b).1 =
    (add_file_embeddings st d f C V b).1 := by
  by_cases hcount : C.length ≠ V.rows.length
  · simp only [add_count_mismatch_eq _ _ f C V b hcount]
  · have hsome : ∃ E0, (getKind st (targetIsImage f b)).1 = some E0 := by
      cases h : (getKind st (targetIsImage f b)).1 with
      | none =>
        have hmeta := (kindInv_getKind st (targetIsImage f b) hinv).2.1 h
        rw [hmeta] at hm0
        exact absurd hm0 (List.not_mem_nil m0)
      | some E0 => exact ⟨E0, rfl⟩
    obtain ⟨E0, htgt⟩ := hsome
    have hpost := getKind_remove_some st d f (targetIsImage f b)
    rw [htgt] at hpost
    obtain ⟨E1, hE1eq, hE1cols⟩ :=
      removeRowsForPath_some E0 (getKind st (targetIsImage f b)).2 f m0 hm0 hne0
    have hm0in1 := mem_removeRowsForPath (some E0) (getKind st (targetIsImage f b)).2 f m0 hm0 hne0
    have hfree1 := removeRowsForPath_no_fp (some E0) (getKind st (targetIsImage f b)).2 f
    have hfree1' : ∀ m ∈ (getKind (remove_file_embeddings st d f
        (some (targetIsImage f b))).1 (targetIsImage f b)).2, m.file_path ≠ f := by
      intro m hm
      rw [hpost] at hm
      exact hfree1 m hm
    have hcur : (getKind (remove_file_embeddings st d f (some (targetIsImage f b))).1
        (targetIsImage f b)).1 = some E1 := by
      rw [hpost]; exact hE1eq
    by_cases hdim : V.ncols ≠ E0.ncols
    · -- dimension mismatch: both calls fail identically, and the second
      -- internal removal finds nothing
      have hdim2 : V.ncols ≠ E1.ncols := by rw [hE1cols]; exact hdim
      have hfirst := add_dim_mismatch_eq st d f C V b E0 hcount htgt hdim
      have hsecond := add_dim_mismatch_eq
        (remove_file_embeddings st d f (some (targetIsImage f b))).1
        (remove_file_embeddings st d f (some (targetIsImage f b))).2
        f C V b E1 hcount hcur hdim2
      simp only [hfirst, hsecond]
      exact remove_some_state_noop _ _ f (targetIsImage f b) hfree1'
    · -- successful vstack path
      have hdimE1 : ¬V.ncols ≠ E1.ncols := by rw [hE1cols]; exact hdim
      have hinv1 := remove_preserves_inv st d f (some (targetIsImage f b)) hinv
      have hlen1 : E1.rows.length = (getKind (remove_file_embeddings st d f
          (some (targetIsImage f b))).1 (targetIsImage f b)).2.length := by
        have h := (kindInv_getKind _ (targetIsImage f b) hinv1).1
        rw [hcur] at h
        simpa [matLen] using h
      have hm0in1' : m0 ∈ (getKind (remove_file_embeddings st d f
          (some (targetIsImage f b))).1 (targetIsImage f b)).2 := by
        rw [hpost]; exact hm0in1
      have hfirst := add_vstack_eq st d f C V b E0 E1 hcount htgt hdim hcur
      simp only [hfirst]
      by_cases hC : C = []
      · -- no new rows: the first call already reproduced the removed state
        subst hC
        have hV : V.rows = [] := by
          simp only [ne_eq, not_not, List.length_nil] at hcount
          exact List.length_eq_zero.mp hcount.symm
        have hmk : mkMetadataEntries f ([] : List String) = [] := rfl
        have hS2 : setKind (remove_file_embeddings st d f (some (targetIsImage f b))).1
            (targetIsImage f b)
            (some (NpMatrix.mk (E1.rows ++ V.rows) E1.ncols))
            ((getKind (remove_file_embeddings st d f (some (targetIsImage f b))).1
              (targetIsImage f b)).2 ++ mkMetadataEntries f []) =
            (remove_file_embeddings st d f (some (targetIsImage f b))).1 := by
          rw [hV, List.append_nil, hmk, List.append_nil]
          show setKind _ _ (some E1) _ = _
          rw [← hcur]
          exact setKind_eta _ _
        rw [hS2]
        have hcur2 : (getKind (remove_file_embeddings
            (remove_file_embeddings st d f (some (targetIsImage f b))).1
            (save_search_data (remove_file_embeddings st d f (some (targetIsImage f b))).1
              (remove_file_embeddings st d f (some (targetIsImage f b))).2)
            f (some (targetIsImage f b))).1 (targetIsImage f b)).1 = some E1 := by
          rw [remove_some_state_noop _ _ f (targetIsImage f b) hfree1']
          exact hcur
        have hsecond := add_vstack_eq
          (remove_file_embeddings st d f (some (targetIsImage f b))).1
          (save_search_data (remove_file_embeddings st d f (some (targetIsImage f b))).1
            (remove_file_embeddings st d f (some (targetIsImage f b))).2)
          f [] V b E1 E1 hcount hcur hdimE1 hcur2
        simp only [hsecond]
        rw [remove_some_state_noop _ _ f (targetIsImage f b) hfree1']
        rw [hV, List.append_nil, hmk, List.append_nil]
        show setKind _ _ (some E1) _ = _
        rw [← hcur]
        exact setKind_eta _ _
      · -- new rows present: the second internal removal strips exactly them
        have hnew : mkMetadataEntries f C ≠ [] := by
          intro h
          have hh := mkMetadataEntries_length f C
          rw [h] at hh
          exact hC (List.length_eq_zero.mp hh.symm)
        have hm1ne : (getKind (remove_file_embeddings st d f
            (some (targetIsImage f b))).1 (targetIsImage f b)).2 ≠ [] := by
          intro h
          rw [h] at hm0in1'
          exact absurd hm0in1' (List.not_mem_nil m0)
        have hrr := removeRowsForPath_append
          (NpMatrix.mk (E1.rows ++ V.rows) E1.ncols) E1.rows V.rows rfl
          (getKind (remove_file_embeddings st d f (some (targetIsImage f b))).1
            (targetIsImage f b)).2
          (mkMetadataEntries f C) f hfree1' (mkMetadataEntries_fp f C) hlen1 hnew
        rw [if_neg (by simpa [List.isEmpty_iff] using hm1ne)] at hrr
        -- abbreviate the state of the first call
        have hremS2 : (remove_file_embeddings
            (setKind (remove_file_embeddings st d f (some (targetIsImage f b))).1
              (targetIsImage f b)
              (some (NpMatrix.mk (E1.rows ++ V.rows) E1.ncols))
              ((getKind (remove_file_embeddings st d f (some (targetIsImage f b))).1
                (targetIsImage f b)).2 ++ mkMetadataEntries f C))
            (save_search_data
              (setKind (remove_file_embeddings st d f (some (targetIsImage f b))).1
                (targetIsImage f b)
                (some (NpMatrix.mk (E1.rows ++ V.rows) E1.ncols))
                ((getKind (remove_file_embeddings st d f (some (targetIsImage f b))).1
                  (targetIsImage f b)).2 ++ mkMetadataEntries f C))
              (remove_file_embeddings st d f (some (targetIsImage f b))).2)
            f (some (targetIsImage f b))).1 =
            setKind (setKind (remove_file_embeddings st d f (some (targetIsImage f b))).1
              (targetIsImage f b)
              (some (NpMatrix.mk (E1.rows ++ V.rows) E1.ncols))
              ((getKind (remove_file_embeddings st d f (some (targetIsImage f b))).1
                (targetIsImage f b)).2 ++ mkMetadataEntries f C))
              (targetIsImage f b) (some E1)
              (getKind (remove_file_embeddings st d f (some (targetIsImage f b))).1
                (targetIsImage f b)).2 := by
          rw [remove_some_as_setKind, getKind_setKind, hrr]
        have htgtS2 : (getKind (setKind (remove_file_embeddings st d f
            (some (targetIsImage f b))).1 (targetIsImage f b)
            (some (NpMatrix.mk (E1.rows ++ V.rows) E1.ncols))
            ((getKind (remove_file_embeddings st d f (some (targetIsImage f b))).1
              (targetIsImage f b)).2 ++ mkMetadataEntries f C))
            (targetIsImage f b)).1 = some (NpMatrix.mk (E1.rows ++ V.rows) E1.ncols) := by
          rw [getKind_setKind]
        have hcurS2 : (getKind (remove_file_embeddings
            (setKind (remove_file_embeddings st d f (some (targetIsImage f b))).1
              (targetIsImage f b)
              (some (NpMatrix.mk (E1.rows ++ V.rows) E1.ncols))
              ((getKind (remove_file_embeddings st d f (some (targetIsImage f b))).1
                (targetIsImage f b)).2 ++ mkMetadataEntries f C))
            (save_search_data
              (setKind (remove_file_embeddings st d f (some (targetIsImage f b))).1
                (targetIsImage f b)
                (some (NpMatrix.mk (E1.rows ++ V.rows) E1.ncols))
                ((getKind (remove_file_embeddings st d f (some (targetIsImage f b))).1
                  (targetIsImage f b)).2 ++ mkMetadataEntries f C))
              (remove_file_embeddings st d f (some (targetIsImage f b))).2)
            f (some (targetIsImage f b))).1 (targetIsImage f b)).1 = some E1 := by
          rw [hremS2, getKind_setKind]
        have hsecond := add_vstack_eq
          (setKind (remove_file_embeddings st d f (some (targetIsImage f b))).1
            (targetIsImage f b)
            (some (NpMatrix.mk (E1.rows ++ V.rows) E1.ncols))
            ((getKind (remove_file_embeddings st d f (some (targetIsImage f b))).1
              (targetIsImage f b)).2 ++ mkMetadataEntries f C))
          (save_search_data
            (setKind (remove_file_embeddings st d f (some (targetIsImage f b))).1
              (targetIsImage f b)
              (some (NpMatrix.mk (E1.rows ++ V.rows) E1.ncols))
              ((getKind (remove_file_embeddings st d f (some (targetIsImage f b))).1
                (targetIsImage f b)).2 ++ mkMetadataEntries f C))
            (remove_file_embeddings st d f (some (targetIsImage f b))).2)
          f C V b (NpMatrix.mk (E1.rows ++ V.rows) E1.ncols) E1 hcount htgtS2
          (by show ¬V.ncols ≠ E1.ncols; exact hdimE1) hcurS2
        simp only [hsecond]
        rw [hremS2, getKind_setKind, setKind_setKind, setKind_setKind]

/-- One operation preserves the invariant. -/
theorem apply_preserves_inv (s : SMState × Disk) (op : SMOp) (hrect : op.RectInput)
    (hinv : SMInv s.1) : SMInv (SMOp.apply s op).1 := by
  cases op with
  | add fp c V b => exact add_preserves_inv s.1 s.2 fp c V b hrect hinv
  | remove fp b => exact remove_preserves_inv s.1 s.2 fp b hinv

/-- Folding a sequence of operations preserves the invariant. -/
theorem foldl_preserves_inv (ops : List SMOp) :
    ∀ s : SMState × Disk, SMInv s.1 → (∀ op ∈ ops, op.RectInput) →
      SMInv (ops.foldl SMOp.apply s).1 := by
  induction ops with
  | nil => intro s h _; exact h
  | cons op rest ih =>
    intro s h hall
    exact ih _ (apply_preserves_inv s op (hall op (by simp)) h)
      (fun o ho => hall o (by simp [ho]))

end SearchManager

/-! ### Claim theorems -/

/-- C1 (amended). Parallel-lists invariant of the vector index: starting
from an empty SearchManager, after any sequence of add_file_embeddings and
remove_file_embeddings operations whose added matrices are rectangular of
width other than one, each kind keeps its embedding matrix and metadata
list at equal length, the matrix is absent only when the metadata list is
empty, and all rows of a present matrix share its width. The original
claim's "matrix absent exactly when the list is empty" fails: an add with
an empty chunk list adopts a zero-row matrix, leaving a present matrix
beside an empty list (see the counterexample); width-one matrices are
excluded because a sole-occupant re-add then corrupts the array with an
object-dtype row in the real numpy code. -/
theorem C1_parallel_lists_invariant (ops : List SMOp)
    (hsafe : ∀ op ∈ ops, op.FloatSafe) :
    SMInv (ops.foldl SMOp.apply (emptySM, emptyDisk)).1 := by
  refine SearchManager.foldl_preserves_inv ops (emptySM, emptyDisk) (by decide) ?_
  intro op hop
  cases op with
  | add fp c V b => exact (hsafe _ hop).1
  | remove fp b => exact trivial

theorem C1_parallel_lists_invariant_witness :
    SMInv ((Fixtures.opsC1.foldl SMOp.apply (emptySM, emptyDisk)).1) :=
  C1_parallel_lists_invariant Fixtures.opsC1 (by decide)

/-- C1 counterexample: a single add with an empty chunk list and a
zero-row matrix leaves the text matrix present while the metadata list is
empty, refuting "matrix absent exactly when the list is empty". -/
theorem C1_counterexample_zero_chunk_add :
    (SMOp.add "/w/f.txt" [] (NpMatrix.mk [] 5) false).FloatSafe ∧
    ¬ ((([SMOp.add "/w/f.txt" [] (NpMatrix.mk [] 5) false].foldl SMOp.apply
          (emptySM, emptyDisk)).1.embeddings = none) ↔
        (([SMOp.add "/w/f.txt" [] (NpMatrix.mk [] 5) false].foldl SMOp.apply
          (emptySM, emptyDisk)).1.metadata = [])) := by
  constructor
  · decide
  · decide

/-- C4 (amended). Idempotence of add_file_embeddings: applying the same
call twice in succession leaves the in-memory (matrix, metadata-list) pair
of the targeted kind equal to the state after one application, provided the
targeted kind also holds a row of some other file. Without that proviso the
claim fails: the branch inside add_file_embeddings is chosen on an alias
bound before the internal removal, so when the file was the sole occupant
the second call reaches np.vstack([None, V]) and raises instead of
reproducing the state (see the counterexample). -/
theorem C4_add_idempotent (st : SMState) (d : Disk) (f : String) (C : List String)
    (V : NpMatrix) (b : Bool) (hinv : SMInv st) (m0 : MetaEntry)
    (hm0 : m0 ∈ (SearchManager.getKind st (SearchManager.targetIsImage f b)).2)
    (hne0 : m0.file_path ≠ f) :
    SearchManager.getKind
        (SearchManager.add_file_embeddings
          (SearchManager.add_file_embeddings st d f C V b).1
          (SearchManager.add_file_embeddings st d f C V b).2.1 f C V b).1
        (SearchManager.targetIsImage f b) =
      SearchManager.getKind (SearchManager.add_file_embeddings st d f C V b).1
        (SearchManager.targetIsImage f b) :=
  congrArg (fun s => SearchManager.getKind s (SearchManager.targetIsImage f b))
    (SearchManager.add_twice_eq st d f C V b hinv m0 hm0 hne0)

theorem C4_add_idempotent_witness :
    SearchManager.getKind
        (SearchManager.add_file_embeddings
          (SearchManager.add_file_embeddings Fixtures.stOther emptyDisk "/w/a.txt" ["x"]
            (NpMatrix.mk [[1, 2]] 2) false).1
          (SearchManager.add_file_embeddings Fixtures.stOther emptyDisk "/w/a.txt" ["x"]
            (NpMatrix.mk [[1, 2]] 2) false).2.1 "/w/a.txt" ["x"]
          (NpMatrix.mk [[1, 2]] 2) false).1
        (SearchManager.targetIsImage "/w/a.txt" false) =
      SearchManager.getKind
        (SearchManager.add_file_embeddings Fixtures.stOther emptyDisk "/w/a.txt" ["x"]
          (NpMatrix.mk [[1, 2]] 2) false).1
        (SearchManager.targetIsImage "/w/a.txt" false) :=
  C4_add_idempotent Fixtures.stOther emptyDisk "/w/a.txt" ["x"] (NpMatrix.mk [[1, 2]] 2)
    false (by decide) Fixtures.mOther (by decide) (by decide)

/-- C4 counterexample: on an index holding only the added file, the second
identical add raises (np.vstack of the removed None target) and leaves the
kind empty, so the state after two applications differs from the state
after one. -/
theorem C4_counterexample_sole_occupant :
    ((SearchManager.add_file_embeddings emptySM emptyDisk "/w/a.txt" ["x"]
        (NpMatrix.mk [[1, 2]] 2) false).1.embeddings = some (NpMatrix.mk [[1, 2]] 2)) ∧
    ((SearchManager.add_file_embeddings
        (SearchManager.add_file_embeddings emptySM emptyDisk "/w/a.txt" ["x"]
          (NpMatrix.mk [[1, 2]] 2) false).1
        (SearchManager.add_file_embeddings emptySM emptyDisk "/w/a.txt" ["x"]
          (NpMatrix.mk [[1, 2]] 2) false).2.1 "/w/a.txt" ["x"]
        (NpMatrix.mk [[1, 2]] 2) false).1.embeddings = none) ∧
    ((SearchManager.add_file_embeddings
        (SearchManager.add_file_embeddings emptySM emptyDisk "/w/a.txt" ["x"]
          (NpMatrix.mk [[1, 2]] 2) false).1
        (SearchManager.add_file_embeddings emptySM emptyDisk "/w/a.txt" ["x"]
          (NpMatrix.mk [[1, 2]] 2) false).2.1 "/w/a.txt" ["x"]
        (NpMatrix.mk [[1, 2]] 2) false).2.2.isSome = true) := by
  refine ⟨by decide, by decide, by decide⟩

/-- C8 (code bug). Removing the only file of an index empties it in memory,
but _save_search_data skips writing empty indices, so the stale sidecar
files survive and a SearchManager loaded from that disk still contains the
removed rows. -/
theorem C8_removal_not_persisted_when_empty :
    (SearchManager.remove_file_embeddings
        (SearchManager.add_file_embeddings emptySM emptyDisk "/w/a.txt" ["hello"]
          (NpMatrix.mk [[1]] 1) false).1
        (SearchManager.add_file_embeddings emptySM emptyDisk "/w/a.txt" ["hello"]
          (NpMatrix.mk [[1]] 1) false).2.1 "/w/a.txt" none).1.metadata = [] ∧
    (SearchManager.remove_file_embeddings
        (SearchManager.add_file_embeddings emptySM emptyDisk "/w/a.txt" ["hello"]
          (NpMatrix.mk [[1]] 1) false).1
        (SearchManager.add_file_embeddings emptySM emptyDisk "/w/a.txt" ["hello"]
          (NpMatrix.mk [[1]] 1) false).2.1 "/w/a.txt" none).1.embeddings = none ∧
    (SearchManager.load_search_data
        (SearchManager.remove_file_embeddings
          (SearchManager.add_file_embeddings emptySM emptyDisk "/w/a.txt" ["hello"]
            (NpMatrix.mk [[1]] 1) false).1
          (SearchManager.add_file_embeddings emptySM emptyDisk "/w/a.txt" ["hello"]
            (NpMatrix.mk [[1]] 1) false).2.1 "/w/a.txt" none).2).metadata =
      [{ file_path := "/w/a.txt", file_name := "a.txt", chunk_index := 0,
         chunk_text := "hello" }] := by
  refine ⟨by decide, by decide, by decide⟩

/-- C9 (confirmed). Indexing-job exclusion: when the repository already has
a task in the starting or indexing status, the request is rejected, echoing
that task's indexed and total counters and leaving the table untouched;
otherwise a fresh record with status starting is installed under the
lock. -/
theorem C9_indexing_exclusion (tasks : TaskTable) (repo_id : String) :
    (∀ t, tasks.lookup repo_id = some t →
      (t.status = .starting ∨ t.status = .indexing) →
      WebApp.index_files_admission tasks repo_id =
        (some (t.status, t.indexed, t.total), tasks)) ∧
    ((∀ t, tasks.lookup repo_id = some t → t.status ≠ .starting ∧ t.status ≠ .indexing) →
      (WebApp.index_files_admission tasks repo_id).1 = none ∧
      (WebApp.index_files_admission tasks repo_id).2.lookup repo_id =
        some WebApp.freshTask) := by
  constructor
  · intro t hlook hst
    simp only [WebApp.index_files_admission, hlook]
    rw [if_pos hst]
  · intro hfresh
    unfold WebApp.index_files_admission
    cases hlook : tasks.lookup repo_id with
    | none => simp [List.lookup]
    | some t =>
      have hne := hfresh t hlook
      have hcond : ¬(t.status = TaskStatus.starting ∨ t.status = TaskStatus.indexing) := by
        intro h
        rcases h with h | h
        · exact hne.1 h
        · exact hne.2 h
      simp only [if_neg hcond]
      simp [List.lookup]

theorem C9_indexing_exclusion_witness :
    WebApp.index_files_admission [("/r/.filex", Fixtures.busyTask)] "/r/.filex" =
      (some (TaskStatus.indexing, 3, 10), [("/r/.filex", Fixtures.busyTask)]) :=
  (C9_indexing_exclusion [("/r/.filex", Fixtures.busyTask)] "/r/.filex").1
    Fixtures.busyTask (by decide) (by decide)

/-- C7 (code bug). FileMetadata defines no is_image_type field, so the
snapshot from_path returns has no such attribute, and
ImageFileHandler.can_handle, whose first conjunct reads
metadata.is_image_type, always raises AttributeError instead of returning a
boolean. -/
theorem C7_is_image_type_missing :
    (∀ (p : String) (sz : Nat) (mt ct : Int),
      (FileMetadata.from_path p sz mt ct).getattr "is_image_type" = none) ∧
    (∀ m : FileMetadata, ImageFileHandler.can_handle m =
      .error "AttributeError: FileMetadata object has no attribute is_image_type") := by
  constructor
  · intro p sz mt ct
    rfl
  · intro m
    rfl

/-- C2 (confirmed). has_changed returns true exactly when the catalog has
no row for the file, or the stored size differs, or the stored mtime is
strictly before the current one (both present), or the stored hash differs
from the SHA-256 of the current bytes; and the hash is computed exactly
when the first three checks all pass. -/
theorem C2_has_changed_contract (catalog : Catalog) (sha256 : List Nat → String)
    (fs : String → List Nat) (metadata : FileMetadata) :
    ((IndexManager.has_changed catalog sha256 fs metadata).1 = true ↔
      (IndexManager.get_index_entry catalog metadata.file_path = none ∨
       ∃ entry, IndexManager.get_index_entry catalog metadata.file_path = some entry ∧
         (entry.file_size ≠ metadata.file_size_bytes ∨
          (∃ a b, entry.modified_time = some a ∧ metadata.modified_time = some b ∧ a < b) ∨
          entry.file_hash ≠ sha256 (fs metadata.file_path)))) ∧
    ((IndexManager.has_changed catalog sha256 fs metadata).2 = true ↔
      ∃ entry, IndexManager.get_index_entry catalog metadata.file_path = some entry ∧
        entry.file_size = metadata.file_size_bytes ∧
        ¬ (∃ a b, entry.modified_time = some a ∧ metadata.modified_time = some b ∧ a < b)) := by
  have hmt : ∀ entry : FileIndexEntry,
      (IndexManager.mtimeStrictlyBefore entry metadata = true ↔
        ∃ a b, entry.modified_time = some a ∧ metadata.modified_time = some b ∧ a < b) := by
    intro entry
    unfold IndexManager.mtimeStrictlyBefore
    cases h1 : entry.modified_time <;> cases h2 : metadata.modified_time <;> simp
  unfold IndexManager.has_changed
  cases hlook : IndexManager.get_index_entry catalog metadata.file_path with
  | none =>
    constructor
    · constructor
      · intro _
        exact Or.inl rfl
      · intro _
        trivial
    · constructor
      · intro h
        exact nomatch h
      · rintro ⟨e, he, -⟩
        cases he
  | some entry =>
    by_cases hsize : entry.file_size ≠ metadata.file_size_bytes
    · simp only [if_pos hsize]
      constructor
      · constructor
        · intro _
          exact Or.inr ⟨entry, rfl, Or.inl hsize⟩
        · intro _
          trivial
      · constructor
        · intro h
          exact nomatch h
        · rintro ⟨e, he, hs, -⟩
          cases he
          exact absurd hs hsize
    · simp only [if_neg hsize]
      simp only [ne_eq, not_not] at hsize
      by_cases hmtb : IndexManager.mtimeStrictlyBefore entry metadata = true
      · simp only [if_pos hmtb]
        constructor
        · constructor
          · intro _
            exact Or.inr ⟨entry, rfl, Or.inr (Or.inl ((hmt entry).mp hmtb))⟩
          · intro _
            trivial
        · constructor
          · intro h
            exact nomatch h
          · rintro ⟨e, he, -, hnm⟩
            cases he
            exact absurd ((hmt entry).mp hmtb) hnm
      · simp only [if_neg hmtb]
        by_cases hh : entry.file_hash ≠ sha256 (fs metadata.file_path)
        · simp only [IndexManager.compute_file_hash, if_pos hh]
          constructor
          · constructor
            · intro _
              exact Or.inr ⟨entry, rfl, Or.inr (Or.inr hh)⟩
            · intro _
              trivial
          · constructor
            · intro _
              exact ⟨entry, rfl, hsize, fun hex => hmtb ((hmt entry).mpr hex)⟩
            · intro _
              trivial
        · simp only [IndexManager.compute_file_hash, if_neg hh]
          simp only [ne_eq, not_not] at hh
          constructor
          · constructor
            · intro h
              exact nomatch h
            · rintro (h | ⟨e, he, h | h | h⟩)
              · cases h
              · cases he
                exact absurd hsize h
              · cases he
                exact absurd ((hmt entry).mpr h) hmtb
              · cases he
                exact absurd hh h
          · constructor
            · intro _
              exact ⟨entry, rfl, hsize, fun hex => hmtb ((hmt entry).mpr hex)⟩
            · intro _
              trivial

/-- C3 (amended). After a successful index_file, moving the mtime of the
file strictly forward while its bytes (size and hash) are unchanged makes a
subsequent index_file call without force return indexed = true: the strict
mtime comparison of has_changed fires before the hash is ever computed, so
the file is reindexed rather than skipped. The original claim (indexed =
false) contradicts the code; see the counterexample. -/
theorem C3_touch_forward_reindexes (st : RepoState) (sha256 : List Nat → String)
    (fs : String → List Nat) (metadata : FileMetadata) (result : ProcessResult)
    (now : Int) (entry : FileIndexEntry)
    (hlook : IndexManager.get_index_entry st.catalog metadata.file_path = some entry)
    (hsize : entry.file_size = metadata.file_size_bytes)
    (hhash : entry.file_hash = sha256 (fs metadata.file_path))
    (a b : Int) (ha : entry.modified_time = some a) (hb : metadata.modified_time = some b)
    (hab : a < b) :
    (RepositoryManager.index_file st sha256 fs metadata result false now).1.indexed = true := by
  have hmtb : IndexManager.mtimeStrictlyBefore entry metadata = true := by
    unfold IndexManager.mtimeStrictlyBefore
    rw [ha, hb]
    simpa using hab
  have hch : (IndexManager.has_changed st.catalog sha256 fs metadata).1 = true := by
    simp only [IndexManager.has_changed, hlook]
    by_cases hs : entry.file_size ≠ metadata.file_size_bytes
    · simp [hs]
    · simp [hs, hmtb]
  simp [RepositoryManager.index_file, hch]

theorem C3_touch_forward_reindexes_witness :
    (RepositoryManager.index_file Fixtures.rsC3 Fixtures.shaStub Fixtures.fsStub
      Fixtures.mdC3 Fixtures.prC3 false 5).1.indexed = true :=
  C3_touch_forward_reindexes Fixtures.rsC3 Fixtures.shaStub Fixtures.fsStub Fixtures.mdC3
    Fixtures.prC3 5 Fixtures.entryC3 (by decide) (by decide) (by decide)
    100 101 (by decide) (by decide) (by decide)

/-- C3 counterexample: index a file successfully, then touch only its mtime
forward; the next index_file call without force reindexes it
(indexed = true), while the claim asserts indexed = false. -/
theorem C3_counterexample_touch_forward :
    (RepositoryManager.index_file emptyRepoState Fixtures.shaStub Fixtures.fsStub
      Fixtures.mdC3pre Fixtures.prC3 false 0).1.indexed = true ∧
    (RepositoryManager.index_file
      (RepositoryManager.index_file emptyRepoState Fixtures.shaStub Fixtures.fsStub
        Fixtures.mdC3pre Fixtures.prC3 false 0).2
      Fixtures.shaStub Fixtures.fsStub Fixtures.mdC3 Fixtures.prC3 false 1).1.indexed =
      true := by
  constructor
  · decide
  · decide

/-- C10 (confirmed). index_file is not atomic with respect to the vector
index: when the catalog row has been committed and the
search-manager update errors, the error is swallowed, the catalog row and
the blob stay in place, the in-memory vector index keeps whatever state the
failed call left, and the returned dictionary still reports indexed = true
and processed = true with no error indication. -/
theorem C10_index_file_swallows_vector_error (st : RepoState)
    (sha256 : List Nat → String) (fs : String → List Nat) (metadata : FileMetadata)
    (result : ProcessResult) (force : Bool) (now : Int) (pe : ProcessEmbeddings)
    (emb : NpMatrix) (chunks : List String)
    (hbranch : force = true ∨
      (IndexManager.has_changed st.catalog sha256 fs metadata).1 = true)
    (hproc : result.processed = true)
    (hpe : result.embeddings = some pe)
    (hemb : pe.embeddings = some emb)
    (hchunks : pe.chunks = some chunks)
    (hlen : chunks.length > 0)
    (herr : (SearchManager.add_file_embeddings st.sm st.disk metadata.file_path chunks emb
      false).2.2.isSome = true) :
    (RepositoryManager.index_file st sha256 fs metadata result force now).1.indexed = true ∧
    (RepositoryManager.index_file st sha256 fs metadata result force now).1.processed =
      some true ∧
    IndexManager.get_index_entry
      (RepositoryManager.index_file st sha256 fs metadata result force now).2.catalog
      metadata.file_path = some
        { file_path := metadata.file_path, file_hash := sha256 (fs metadata.file_path)
          file_size := metadata.file_size_bytes, modified_time := metadata.modified_time
          indexed_time := some now, extension := metadata.file_extension
          is_text_type := metadata.is_text_type, num_chunks := pe.num_chunks
          embedding_dimension := pe.embedding_dimension } ∧
    (RepositoryManager.index_file st sha256 fs metadata result force now).2.blobs.lookup
      metadata.file_path = some emb ∧
    (RepositoryManager.index_file st sha256 fs metadata result force now).2.sm =
      (SearchManager.add_file_embeddings st.sm st.disk metadata.file_path chunks emb
        false).1 := by
  have hcond : (!force &&
      !(IndexManager.has_changed st.catalog sha256 fs metadata).1) = false := by
    rcases hbranch with h | h
    · rw [h]
      rfl
    · rw [h]
      simp
  refine ⟨?_, ?_, ?_, ?_, ?_⟩
  · simp [RepositoryManager.index_file, hcond]
  · simp [RepositoryManager.index_file, hcond, hproc]
  · simp [RepositoryManager.index_file, hcond, hproc, hpe, hemb, hchunks, hlen,
      IndexManager.get_index_entry, IndexManager.add_entry, List.lookup,
      IndexManager.compute_file_hash]
  · simp [RepositoryManager.index_file, hcond, hproc, hpe, hemb, hchunks, hlen,
      StorageManager.save_processing_result, List.lookup]
  · simp [RepositoryManager.index_file, hcond, hproc, hpe, hemb, hchunks, hlen]

theorem C10_index_file_swallows_vector_error_witness :
    (SearchManager.add_file_embeddings Fixtures.rsC10.sm Fixtures.rsC10.disk
      Fixtures.mdC10.file_path ["y"] (NpMatrix.mk [[1, 2, 3]] 3) false).2.2.isSome = true ∧
    ((RepositoryManager.index_file Fixtures.rsC10 Fixtures.shaStub Fixtures.fsStub
        Fixtures.mdC10 Fixtures.prC10 true 9).1.indexed = true ∧
     (RepositoryManager.index_file Fixtures.rsC10 Fixtures.shaStub Fixtures.fsStub
        Fixtures.mdC10 Fixtures.prC10 true 9).1.processed = some true ∧
     IndexManager.get_index_entry
        (RepositoryManager.index_file Fixtures.rsC10 Fixtures.shaStub Fixtures.fsStub
          Fixtures.mdC10 Fixtures.prC10 true 9).2.catalog
        Fixtures.mdC10.file_path = some
          { file_path := Fixtures.mdC10.file_path
            file_hash := Fixtures.shaStub (Fixtures.fsStub Fixtures.mdC10.file_path)
            file_size := Fixtures.mdC10.file_size_bytes
            modified_time := Fixtures.mdC10.modified_time
            indexed_time := some 9, extension := Fixtures.mdC10.file_extension
            is_text_type := Fixtures.mdC10.is_text_type
            num_chunks := Fixtures.peC10.num_chunks
            embedding_dimension := Fixtures.peC10.embedding_dimension } ∧
     (RepositoryManager.index_file Fixtures.rsC10 Fixtures.shaStub Fixtures.fsStub
        Fixtures.mdC10 Fixtures.prC10 true 9).2.blobs.lookup Fixtures.mdC10.file_path =
       some (NpMatrix.mk [[1, 2, 3]] 3) ∧
     (RepositoryManager.index_file Fixtures.rsC10 Fixtures.shaStub Fixtures.fsStub
        Fixtures.mdC10 Fixtures.prC10 true 9).2.sm =
       (SearchManager.add_file_embeddings Fixtures.rsC10.sm Fixtures.rsC10.disk
         Fixtures.mdC10.file_path ["y"] (NpMatrix.mk [[1, 2, 3]] 3) false).1) :=
  ⟨by decide,
   C10_index_file_swallows_vector_error Fixtures.rsC10 Fixtures.shaStub Fixtures.fsStub
     Fixtures.mdC10 Fixtures.prC10 true 9 Fixtures.peC10 (NpMatrix.mk [[1, 2, 3]] 3) ["y"]
     (Or.inl rfl) rfl rfl rfl rfl (by decide) (by decide)⟩

/-- C5 (confirmed). Search contract: search fails exactly when top_k is
not positive; otherwise, for every query, image query and index state, it
returns a list of at most top_k results sorted non-increasingly by
similarity score, and in particular never raises for a query whose
dimension matches no index (such sweeps are skipped). -/
theorem C5_search_contract (l2norm : List ℚ → ℚ) (st : SMState) (q : List ℚ)
    (top_k : Int) (qi : Option (List ℚ)) :
    ((∃ e, SearchManager.search l2norm st q top_k qi = .error e) ↔ top_k ≤ 0) ∧
    (0 < top_k → ∃ l, SearchManager.search l2norm st q top_k qi = .ok l ∧
      l.length ≤ top_k.toNat ∧
      l.Pairwise (fun a b => b.similarity_score ≤ a.similarity_score)) := by
  constructor
  · constructor
    · rintro ⟨e, he⟩
      by_contra hk
      unfold SearchManager.search at he
      rw [if_neg hk] at he
      exact Except.noConfusion he
    · intro hk
      refine ⟨"top_k must be positive", ?_⟩
      unfold SearchManager.search
      rw [if_pos hk]
  · intro hk
    unfold SearchManager.search
    rw [if_neg (by omega : ¬top_k ≤ 0)]
    refine ⟨_, rfl, ?_, ?_⟩
    · exact List.length_take_le _ _
    · apply List.Pairwise.sublist (List.take_sublist _ _)
      have htrans : ∀ a b c : SearchResult,
          decide (b.similarity_score ≤ a.similarity_score) = true →
          decide (c.similarity_score ≤ b.similarity_score) = true →
          decide (c.similarity_score ≤ a.similarity_score) = true := by
        intro a b c hab hbc
        exact decide_eq_true (le_trans (of_decide_eq_true hbc) (of_decide_eq_true hab))
      have htotal : ∀ a b : SearchResult,
          (decide (b.similarity_score ≤ a.similarity_score) ||
           decide (a.similarity_score ≤ b.similarity_score)) = true := by
        intro a b
        rcases le_total b.similarity_score a.similarity_score with h | h
        · simp [h]
        · simp [h]
      have hs := List.sorted_mergeSort htrans htotal
        (SearchManager.sweepKind l2norm st.embeddings st.metadata q ++
          match qi with
          | some qiv => SearchManager.sweepKind l2norm st.image_embeddings st.image_metadata qiv
          | none => [])
      exact hs.imp (fun h => of_decide_eq_true h)

theorem C5_search_contract_witness :
    (0 : Int) < 1 ∧
    (∃ l, SearchManager.search (fun v => v.sum) Fixtures.stOther [5, 6] 1 none = .ok l ∧
      l.length ≤ (1 : Int).toNat ∧
      l.Pairwise (fun a b => b.similarity_score ≤ a.similarity_score)) :=
  ⟨by decide,
   (C5_search_contract (fun v => v.sum) Fixtures.stOther [5, 6] 1 none).2 (by decide)⟩

/-- The chunks the fixed-size walk emits are never empty. -/
theorem walk_chunks_ne_nil (chunk_size step : Nat) (hcs : 0 < chunk_size)
    (text : List Char) (hstep : 0 < step) :
    ∀ n start, text.length - start ≤ n →
      ∀ c ∈ FixedSizeChunker.walk chunk_size step text start hstep, c ≠ [] := by
  intro n
  induction n with
  | zero =>
    intro start hle c hc
    rw [FixedSizeChunker.walk] at hc
    rw [dif_neg (by omega)] at hc
    exact absurd hc (List.not_mem_nil c)
  | succ n ih =>
    intro start hle c hc
    rw [FixedSizeChunker.walk] at hc
    by_cases hlt : start < text.length
    · rw [dif_pos hlt] at hc
      rcases List.mem_append.mp hc with h1 | h2
      · have hwin : ((text.drop start).take chunk_size) ≠ [] := by
          apply List.length_pos.mp
          rw [List.length_take, List.length_drop]
          omega
        split at h1
        · rcases List.mem_singleton.mp h1 with rfl
          exact hwin
        · exact absurd h1 (List.not_mem_nil c)
      · exact ih (start + step) (by omega) c h2
    · rw [dif_neg hlt] at hc
      exact absurd hc (List.not_mem_nil c)

/-- The fixed-size chunker returns a non-empty list of non-empty chunks on
non-empty input. -/
theorem fixed_chunk_spec (chunk_size overlap : Nat) (hov : overlap < chunk_size)
    (text : List Char) (hne : text ≠ []) :
    FixedSizeChunker.chunk chunk_size overlap hov text ≠ [] ∧
    ∀ c ∈ FixedSizeChunker.chunk chunk_size overlap hov text, c ≠ [] := by
  unfold FixedSizeChunker.chunk
  rw [if_neg hne]
  by_cases hks : FixedSizeChunker.walk chunk_size (chunk_size - overlap) text 0
      (by omega) = []
  · rw [if_pos hks]
    refine ⟨by simp, ?_⟩
    intro c hc
    rcases List.mem_singleton.mp hc with rfl
    exact hne
  · rw [if_neg hks]
    refine ⟨hks, ?_⟩
    intro c hc
    exact walk_chunks_ne_nil chunk_size (chunk_size - overlap) (by omega) text (by omega)
      text.length 0 (by omega) c hc

/-- Joining non-empty pieces with single spaces yields a non-empty
string. -/
theorem joinSpace_ne_nil (l : List (List Char)) (hl : l ≠ [])
    (h : ∀ s ∈ l, s ≠ []) : SentenceAwareChunker.joinSpace l ≠ [] := by
  cases l with
  | nil => exact absurd rfl hl
  | cons s rest =>
    cases rest with
    | nil => exact h s (by simp)
    | cons t rs =>
      simp only [SentenceAwareChunker.joinSpace, ne_eq, List.append_eq_nil]
      rintro ⟨-, hcons⟩
      exact List.noConfusion hcons

/-- Every chunk the greedy accumulation emits is non-empty when all
sentences and all accumulated pieces are. -/
theorem accumulate_chunks_ne_nil (target max_chunk : Nat) :
    ∀ ss current csz, (∀ s ∈ ss, s ≠ []) → (∀ s ∈ current, s ≠ []) →
      ∀ c ∈ SentenceAwareChunker.accumulate target max_chunk ss current csz, c ≠ [] := by
  intro ss
  induction ss with
  | nil =>
    intro current csz _ hcur c hc
    unfold SentenceAwareChunker.accumulate at hc
    split at hc
    case isTrue => exact absurd hc (List.not_mem_nil c)
    case isFalse hcne =>
      rcases List.mem_singleton.mp hc with rfl
      apply joinSpace_ne_nil current ?_ hcur
      intro hnil
      rw [hnil] at hcne
      exact hcne rfl
  | cons s rest ih =>
    intro current csz hss hcur c hc
    have hs : s ≠ [] := hss s (List.mem_cons_self s rest)
    have hrest : ∀ x ∈ rest, x ≠ [] := fun x hx => hss x (List.mem_cons_of_mem s hx)
    have hsing : ∀ x ∈ [s], x ≠ [] := by
      intro x hx
      rcases List.mem_singleton.mp hx with rfl
      exact hs
    have hcons : ∀ x ∈ current ++ [s], x ≠ [] := by
      intro x hx
      rcases List.mem_append.mp hx with h | h
      · exact hcur x h
      · rcases List.mem_singleton.mp h with rfl
        exact hs
    unfold SentenceAwareChunker.accumulate at hc
    split at hc
    case isTrue hb =>
      rcases List.mem_cons.mp hc with rfl | hmem
      · refine joinSpace_ne_nil current ?_ hcur
        intro hnil
        rw [Bool.and_eq_true] at hb
        rw [hnil] at hb
        simp at hb
      · exact ih [s] s.length hrest hsing c hmem
    case isFalse =>
      split at hc
      case isTrue hb =>
        rcases List.mem_cons.mp hc with rfl | hmem
        · refine joinSpace_ne_nil current ?_ hcur
          intro hnil
          rw [Bool.and_eq_true] at hb
          rw [hnil] at hb
          simp at hb
        · exact ih [s] s.length hrest hsing c hmem
      case isFalse =>
        exact ih (current ++ [s]) (csz + s.length + 1) hrest hcons c hc

/-- The sentence-aware chunker returns a non-empty list of non-empty
chunks on non-empty input. -/
theorem sentence_chunk_spec (target max_chunk : Nat) (text : List Char) (hne : text ≠ []) :
    SentenceAwareChunker.chunk target max_chunk text ≠ [] ∧
    ∀ c ∈ SentenceAwareChunker.chunk target max_chunk text, c ≠ [] := by
  unfold SentenceAwareChunker.chunk
  rw [if_neg hne]
  by_cases hsent : SentenceAwareChunker.split_into_sentences text = []
  · rw [if_pos hsent]
    refine ⟨by simp, ?_⟩
    intro c hc
    rcases List.mem_singleton.mp hc with rfl
    exact hne
  · rw [if_neg hsent]
    have hsentne : ∀ s ∈ SentenceAwareChunker.split_into_sentences text, s ≠ [] := by
      intro x hx
      have hfil := (List.mem_filter.mp hx).2
      intro hnil
      rw [hnil] at hfil
      simp at hfil
    by_cases hacc : SentenceAwareChunker.accumulate target max_chunk
        (SentenceAwareChunker.split_into_sentences text) [] 0 = []
    · rw [if_pos hacc]
      refine ⟨by simp, ?_⟩
      intro c hc
      rcases List.mem_singleton.mp hc with rfl
      exact hne
    · rw [if_neg hacc]
      refine ⟨hacc, ?_⟩
      intro c hc
      exact accumulate_chunks_ne_nil target max_chunk
        (SentenceAwareChunker.split_into_sentences text) [] 0 hsentne
        (fun x hx => absurd hx (List.not_mem_nil x)) c hc

/-- C6 (confirmed). Chunker totality: for every valid configuration and
every non-empty input, both the fixed-size and the sentence-aware chunker
return a non-empty list all of whose chunks are non-empty strings (the
fixed-size variant falls back to emitting the whole input when every walked
window is whitespace-only). -/
theorem C6_chunker_totality (chunk_size overlap target max_chunk : Nat)
    (hov : overlap < chunk_size) (htarget : 0 < target) (hmax : target ≤ max_chunk)
    (text : List Char) (hne : text ≠ []) :
    (FixedSizeChunker.chunk chunk_size overlap hov text ≠ [] ∧
      ∀ c ∈ FixedSizeChunker.chunk chunk_size overlap hov text, c ≠ []) ∧
    (SentenceAwareChunker.chunk target max_chunk text ≠ [] ∧
      ∀ c ∈ SentenceAwareChunker.chunk target max_chunk text, c ≠ []) :=
  ⟨fixed_chunk_spec chunk_size overlap hov text hne,
   sentence_chunk_spec target max_chunk text hne⟩

theorem C6_chunker_totality_witness :
    (FixedSizeChunker.chunk 512 50 Fixtures.hovC6 "alpha beta gamma".data ≠ [] ∧
      ∀ c ∈ FixedSizeChunker.chunk 512 50 Fixtures.hovC6 "alpha beta gamma".data, c ≠ []) ∧
    (SentenceAwareChunker.chunk 100 200 "alpha beta gamma".data ≠ [] ∧
      ∀ c ∈ SentenceAwareChunker.chunk 100 200 "alpha beta gamma".data, c ≠ []) :=
  C6_chunker_totality 512 50 100 200 Fixtures.hovC6 (by decide) (by decide)
    "alpha beta gamma".data (by decide)

end Filex
